import Mathlib

/-!
Verification development for the strativerse curatorial database
(`strativerse/models.py`, `strativerse/geometry.py`).

The Python source is shallowly embedded: database tables become lists of
row structures, the declared uniqueness constraints (`Meta.unique_together`,
`unique=True`) become explicit checks performed by the mutating operations,
Python exceptions become `Except` error values, and numeric WKT coordinates
are modelled as exact rationals (the source converts the matched numerals
with `float()`; rational values preserve the numeric ordering that the
min/max bound computations rely on).
-/

namespace Strativerse

instance {ε α : Type} [DecidableEq ε] [DecidableEq α] : DecidableEq (Except ε α) :=
  fun a b =>
    match a, b with
    | .ok x, .ok y =>
      if h : x = y then .isTrue (by rw [h]) else .isFalse (by simp [h])
    | .error x, .error y =>
      if h : x = y then .isTrue (by rw [h]) else .isFalse (by simp [h])
    | .ok _, .error _ => .isFalse (by simp)
    | .error _, .ok _ => .isFalse (by simp)

/-! ## Alias table (models.py, class Alias, lines 269-282)

`Alias` has `person = ForeignKey(Person)`, `alias = CharField` and
`Meta.unique_together = ['person', 'alias']`.  The only uniqueness the
store enforces on an INSERT is therefore on the *(person, alias)* pair. -/

structure AliasRow where
  person : Nat
  aliasStr : String
deriving DecidableEq, Repr

/-- An INSERT into the alias table: the database rejects the row with an
integrity error exactly when the declared `unique_together`
`['person', 'alias']` constraint would be violated. -/
def aliasInsert (db : List AliasRow) (row : AliasRow) : Except Unit (List AliasRow) :=
  if db.any (fun r => r.person == row.person && r.aliasStr == row.aliasStr) then
    .error ()
  else
    .ok (db ++ [row])

/-- The set of people an alias string resolves to. -/
def personsOfAlias (db : List AliasRow) (a : String) : List Nat :=
  (db.filter (fun r => r.aliasStr == a)).map AliasRow.person

/-- Claim C1: inserting an alias string already owned by a *different*
person does NOT fail: `unique_together = ['person', 'alias']` only rejects
a duplicate pair, so the same alias string may end up resolving to two
different people and the alias-to-person mapping is not kept injective. -/
theorem aliasInsert_not_injective :
    aliasInsert [⟨1, "Smith, J"⟩] ⟨2, "Smith, J"⟩ =
      .ok [⟨1, "Smith, J"⟩, ⟨2, "Smith, J"⟩] ∧
    personsOfAlias [⟨1, "Smith, J"⟩, ⟨2, "Smith, J"⟩] "Smith, J" = [1, 2] ∧
    aliasInsert [⟨1, "Smith, J"⟩] ⟨1, "Smith, J"⟩ = .error () := by
  refine ⟨rfl, rfl, rfl⟩

/-! ## Slug disambiguation suffixes
(models.py, `Publication.update_from_csl_json`, lines 448-458)

The source iterates `('', ) + tuple('abcdefghijklmnopqrstufwxyz')` —
the literal string is reproduced below exactly as written in the code —
assigns `slug + suffix` at the first suffix for which
`Publication.objects.exclude(pk=self.pk).get(slug=slug+suffix)` raises
`DoesNotExist`, and raises `ValidationError` when the loop exhausts. -/

def slugSuffixes : List String :=
  "" :: "abcdefghijklmnopqrstufwxyz".toList.map Char.toString

def chooseSlugGo (otherSlugs : List String) (slug : String) :
    List String → Except Unit String
  | [] => .error ()
  | suf :: rest =>
    if otherSlugs.contains (slug ++ suf) then chooseSlugGo otherSlugs slug rest
    else .ok (slug ++ suf)

/-- The suffix loop of `update_from_csl_json`: `otherSlugs` are the slugs
of all publications other than the one being updated. -/
def chooseSlug (otherSlugs : List String) (slug : String) : Except Unit String :=
  chooseSlugGo otherSlugs slug slugSuffixes

/-- The 26 slugs the code can actually generate from base "smith19"
besides the base itself come from its (typo-ridden) suffix string. -/
def smithTaken : List String := slugSuffixes.map (fun suf => "smith19" ++ suf)

/-- Claim C2: the suffix candidates are NOT `''` then `'a'..'z'`: the
source string `'abcdefghijklmnopqrstufwxyz'` omits `'v'` and repeats
`'f'`.  With every code-reachable candidate taken, the loop raises
`ValidationError` even though the claimed candidate `"smith19v"` is
still free. -/
theorem slug_suffixes_typo :
    chooseSlug smithTaken "smith19" = .error () ∧
    smithTaken.contains "smith19v" = false ∧
    slugSuffixes ≠ "" :: "abcdefghijklmnopqrstuvwxyz".toList.map Char.toString ∧
    slugSuffixes.length = 27 := by
  refine ⟨rfl, by decide, by decide, by decide⟩

/-! ## Recursive feature depth
(models.py, `RecursiveModel._calculate_recursive_depth` lines 91-98 and
`Feature.save` lines 169-172)

`_calculate_recursive_depth` walks the live parent chain: it returns `0`
when `self.parent` is null and otherwise recurses into the parent object
(refetched through the foreign key, i.e. through the table) and adds 1.
`Feature.save` always calls `cache_recursive_depth` before persisting. -/

structure FeatureRow where
  pk : Nat
  parent : Option Nat
  recursive_depth : Int
deriving DecidableEq, Repr

def featureLookup (db : List FeatureRow) (pk : Nat) : Option FeatureRow :=
  db.find? (fun f => f.pk == pk)

/-- `RecursiveModel._calculate_recursive_depth`, with fuel standing for
the Python call stack: `none` models the failure cases (a dangling
parent id, or unbounded recursion on a parent cycle). -/
def calcRecursiveDepth (db : List FeatureRow) : Nat → FeatureRow → Option Nat
  | 0, _ => none
  | fuel + 1, f =>
    match f.parent with
    | none => some 0
    | some p =>
      match featureLookup db p with
      | none => none
      | some fp => (calcRecursiveDepth db fuel fp).map (· + 1)

/-- `Feature.save`: the depth cache is recomputed from the live parent
chain on every save (geometry caching is modelled separately). -/
def featureSave (db : List FeatureRow) (f : FeatureRow) : Option FeatureRow :=
  (calcRecursiveDepth db (db.length + 1) f).map
    (fun d => { f with recursive_depth := (d : Int) })

/-- The data `_calculate_recursive_depth` actually consults: the parent
pointers, never the stored `recursive_depth` values. -/
def parentShape (db : List FeatureRow) : List (Nat × Option Nat) :=
  db.map (fun g => (g.pk, g.parent))

theorem featureLookup_shape {db db₂ : List FeatureRow}
    (h : parentShape db = parentShape db₂) (p : Nat) :
    (featureLookup db p).map (fun g => g.parent) =
      (featureLookup db₂ p).map (fun g => g.parent) := by
  induction db generalizing db₂ with
  | nil =>
    cases db₂ with
    | nil => rfl
    | cons b t => simp [parentShape] at h
  | cons a t ih =>
    cases db₂ with
    | nil => simp [parentShape] at h
    | cons b t₂ =>
      simp only [parentShape, List.map_cons, List.cons.injEq] at h
      obtain ⟨hab, ht⟩ := h
      have hpk : a.pk = b.pk := congrArg Prod.fst hab
      have hpar : a.parent = b.parent := congrArg Prod.snd hab
      simp only [featureLookup, List.find?]
      by_cases hc : a.pk == p
      · have hc₂ : (b.pk == p) = true := by rw [← hpk]; exact hc
        rw [hc, hc₂]
        simp [hpar]
      · have hc' : (a.pk == p) = false := by
          cases hcc : a.pk == p
          · rfl
          · exact absurd hcc hc
        have hc₂ : (b.pk == p) = false := by rw [← hpk]; exact hc'
        rw [hc', hc₂]
        exact ih ht

theorem calcRecursiveDepth_shape {db db₂ : List FeatureRow}
    (h : parentShape db = parentShape db₂) :
    ∀ fuel (f g : FeatureRow), f.parent = g.parent →
      calcRecursiveDepth db fuel f = calcRecursiveDepth db₂ fuel g := by
  intro fuel
  induction fuel with
  | zero => intro f g _; rfl
  | succ n ih =>
    intro f g hfg
    cases hp : g.parent with
    | none =>
      have hf : f.parent = none := by rw [hfg, hp]
      simp [calcRecursiveDepth, hf, hp]
    | some p =>
      have hf : f.parent = some p := by rw [hfg, hp]
      have hlk := featureLookup_shape h p
      simp only [calcRecursiveDepth, hf, hp]
      cases h1 : featureLookup db p with
      | none =>
        rw [h1] at hlk
        cases h2 : featureLookup db₂ p with
        | none => simp
        | some fp₂ => rw [h2] at hlk; simp at hlk
      | some fp =>
        rw [h1] at hlk
        cases h2 : featureLookup db₂ p with
        | none => rw [h2] at hlk; simp at hlk
        | some fp₂ =>
          rw [h2] at hlk
          have hpar : fp.parent = fp₂.parent := by simpa using hlk
          simp [ih fp fp₂ hpar]

/-- Claim C9: on every (successful) save of a Feature the stored
`recursive_depth` is recomputed by walking the live parent chain: it is 0
when the parent link is null, it is the parent's freshly recomputed depth
plus one otherwise, and the computation reads only the parent pointers —
replacing every stored `recursive_depth` in the table by arbitrary stale
values does not change the result. -/
theorem feature_save_recomputes_depth (db : List FeatureRow) (f f' : FeatureRow)
    (h : featureSave db f = some f') :
    (f.parent = none → f'.recursive_depth = 0) ∧
    (∀ p fp, f.parent = some p → featureLookup db p = some fp →
      ∃ dp, calcRecursiveDepth db db.length fp = some dp ∧
        f'.recursive_depth = (dp : Int) + 1) ∧
    (∀ db₂ : List FeatureRow, parentShape db = parentShape db₂ →
      db₂.length = db.length → featureSave db₂ f = some f') := by
  cases hc : calcRecursiveDepth db (db.length + 1) f with
  | none =>
    simp only [featureSave, hc] at h
    simp at h
  | some d =>
    simp only [featureSave, hc] at h
    have hf' : f' = { f with recursive_depth := (d : Int) } := by
      simpa using h.symm
    refine ⟨?_, ?_, ?_⟩
    · intro hp
      have h0 : calcRecursiveDepth db (db.length + 1) f = some 0 := by
        simp [calcRecursiveDepth, hp]
      rw [hc] at h0
      have hd0 : d = 0 := by simpa using h0
      rw [hf', hd0]
      rfl
    · intro p fp hp hfp
      have hstep : calcRecursiveDepth db (db.length + 1) f =
          (calcRecursiveDepth db db.length fp).map (· + 1) := by
        simp [calcRecursiveDepth, hp, hfp]
      rw [hc] at hstep
      cases he : calcRecursiveDepth db db.length fp with
      | none => rw [he] at hstep; simp at hstep
      | some dp =>
        rw [he] at hstep
        have hd : d = dp + 1 := by simpa using hstep
        refine ⟨dp, rfl, ?_⟩
        rw [hf']
        simp [hd]
    · intro db₂ hshape hlen
      have heq : calcRecursiveDepth db₂ (db₂.length + 1) f =
          calcRecursiveDepth db (db.length + 1) f := by
        rw [hlen]
        exact (calcRecursiveDepth_shape hshape (db.length + 1) f f rfl).symm
      simp only [featureSave, heq, hc]
      simpa using hf'.symm

def depthDemoDb : List FeatureRow :=
  [⟨1, none, 99⟩, ⟨2, some 1, 57⟩, ⟨3, some 2, 0⟩]

/-- Witness for C9 at a concrete table whose stored depths are stale:
saving feature 3 recomputes depth 2 from the live chain 3 → 2 → 1. -/
theorem feature_save_recomputes_depth_witness :
    ((⟨3, some 2, 0⟩ : FeatureRow).parent = none →
      (⟨3, some 2, (2 : Int)⟩ : FeatureRow).recursive_depth = 0) ∧
    (∀ p fp, (⟨3, some 2, 0⟩ : FeatureRow).parent = some p →
      featureLookup depthDemoDb p = some fp →
      ∃ dp, calcRecursiveDepth depthDemoDb depthDemoDb.length fp = some dp ∧
        (⟨3, some 2, (2 : Int)⟩ : FeatureRow).recursive_depth = (dp : Int) + 1) ∧
    (∀ db₂ : List FeatureRow, parentShape depthDemoDb = parentShape db₂ →
      db₂.length = depthDemoDb.length →
      featureSave db₂ ⟨3, some 2, 0⟩ = some ⟨3, some 2, (2 : Int)⟩) :=
  feature_save_recomputes_depth depthDemoDb ⟨3, some 2, 0⟩ ⟨3, some 2, (2 : Int)⟩ (by decide)

/-! ## CSL-JSON year extraction
(models.py, `Publication.update_from_csl_json`, lines 366-374)

```
try:
    if 'issued' in entry and 'date-parts' in entry['issued']:
        self.year = int(entry['issued']['date-parts'][0][0])
    elif 'issued' in entry and 'raw' in entry['issued']:
        self.year = int(entry['issued']['raw'][0].strip()[:4])
except (ValueError, KeyError, TypeError):
    raise ValidationError('Could not extract year from entry')
```

The entry is a Python dict (checked earlier in the function); its values
are arbitrary JSON data.  We embed the JSON value universe together with
the dynamic semantics of the Python operations the snippet uses:
`in`, subscription, `int()`, `.strip()` and slicing.  Floats, booleans
and null are not needed by any claim and are omitted from the value
type. -/

inductive PyExc where
  | valueError
  | keyError
  | typeError
  | indexError
  | attributeError
  | validationError
deriving DecidableEq, Repr

inductive PyVal where
  | str (s : String)
  | int (n : Int)
  | list (xs : List PyVal)
  | dict (kvs : List (String × PyVal))
deriving Repr

/-- Python whitespace as used by `str.strip()` and `int()` (the ASCII
part; the exotic unicode space characters never arise here). -/
def isPySpace (c : Char) : Bool :=
  c == ' ' || c == '\t' || c == '\n' || c == '\r' || c == '\x0b' || c == '\x0c'

def pyStripChars (l : List Char) : List Char :=
  ((l.dropWhile isPySpace).reverse.dropWhile isPySpace).reverse

def digitsToNat (l : List Char) : Nat :=
  l.foldl (fun acc c => acc * 10 + (c.toNat - '0'.toNat)) 0

/-- The body of a Python integer literal as accepted by `int(str)`:
digits with single underscores allowed between digits. -/
def pyIntBody (l : List Char) : Option Nat :=
  if l.isEmpty then none
  else if l.head? = some '_' then none
  else if l.getLast? = some '_' then none
  else if (l.zip l.tail).any (fun p => p.1 == '_' && p.2 == '_') then none
  else if (l.filter (fun c => c != '_')).all Char.isDigit then
    some (digitsToNat (l.filter (fun c => c != '_')))
  else none

/-- Python `int()` applied to a string: surrounding whitespace and an
optional sign are allowed. -/
def pyIntOfStr (s : String) : Option Int :=
  match pyStripChars s.toList with
  | '+' :: rest => (pyIntBody rest).map (fun n => (n : Int))
  | '-' :: rest => (pyIntBody rest).map (fun n => -(n : Int))
  | l => (pyIntBody l).map (fun n => (n : Int))

def listContainsSub (needle : List Char) : List Char → Bool
  | [] => needle.isEmpty
  | c :: t => needle.isPrefixOf (c :: t) || listContainsSub needle t

/-- Python `k in v`: key membership for dicts, element membership for
lists (a string compares equal only to an equal string), substring test
for strings, `TypeError` for ints. -/
def pyContains (k : String) : PyVal → Except PyExc Bool
  | .dict kvs => .ok (kvs.any (fun kv => kv.1 == k))
  | .list xs => .ok (xs.any (fun v => match v with | .str s => s == k | _ => false))
  | .str s => .ok (listContainsSub k.toList s.toList)
  | .int _ => .error .typeError

/-- Python subscription `v[k]`, including negative list/string indices. -/
def pyGetItem : PyVal → PyVal → Except PyExc PyVal
  | .dict kvs, .str k =>
    match kvs.find? (fun kv => kv.1 == k) with
    | some kv => .ok kv.2
    | none => .error .keyError
  | .dict _, .int _ => .error .keyError
  | .dict _, _ => .error .typeError
  | .list xs, .int i =>
    let j := if i < 0 then i + xs.length else i
    if 0 ≤ j ∧ j.toNat < xs.length then .ok (xs.getD j.toNat (.int 0))
    else .error .indexError
  | .list _, _ => .error .typeError
  | .str s, .int i =>
    let cs := s.toList
    let j := if i < 0 then i + cs.length else i
    if 0 ≤ j ∧ j.toNat < cs.length then .ok (.str (String.mk [cs.getD j.toNat ' ']))
    else .error .indexError
  | .str _, _ => .error .typeError
  | .int _, _ => .error .typeError

/-- Python `int(v)`. -/
def pyIntFn : PyVal → Except PyExc Int
  | .int n => .ok n
  | .str s =>
    match pyIntOfStr s with
    | some n => .ok n
    | none => .error .valueError
  | _ => .error .typeError

/-- Python `v.strip()`: only strings have the attribute. -/
def pyStripMethod : PyVal → Except PyExc PyVal
  | .str s => .ok (.str (String.mk (pyStripChars s.toList)))
  | _ => .error .attributeError

/-- Python `v[:4]`. -/
def pySlice4 : PyVal → Except PyExc PyVal
  | .str s => .ok (.str (String.mk (s.toList.take 4)))
  | .list xs => .ok (.list (xs.take 4))
  | _ => .error .typeError

/-- The `self.year = ...` block of `update_from_csl_json` without its
`except` clause: `.ok none` means the block fell through without
touching `self.year`; `.ok (some y)` means `self.year = y`. -/
def extractYearInner (entry : List (String × PyVal)) : Except PyExc (Option Int) := do
  let e := PyVal.dict entry
  let hasIssued ← pyContains "issued" e
  if hasIssued then
    let issued ← pyGetItem e (.str "issued")
    let hasDP ← pyContains "date-parts" issued
    if hasDP then
      let dp ← pyGetItem issued (.str "date-parts")
      let first ← pyGetItem dp (.int 0)
      let firstFirst ← pyGetItem first (.int 0)
      let y ← pyIntFn firstFirst
      return some y
    else
      let hasRaw ← pyContains "raw" issued
      if hasRaw then
        let raw ← pyGetItem issued (.str "raw")
        let r0 ← pyGetItem raw (.int 0)
        let stripped ← pyStripMethod r0
        let sliced ← pySlice4 stripped
        let y ← pyIntFn sliced
        return some y
      else
        return none
  else
    return none

/-- The year block with its `except (ValueError, KeyError, TypeError)`
clause: those three exception kinds are converted to `ValidationError`;
every other exception (`IndexError`, `AttributeError`) propagates. -/
def extractYear (entry : List (String × PyVal)) : Except PyExc (Option Int) :=
  match extractYearInner entry with
  | .ok v => .ok v
  | .error e =>
    if e = .valueError ∨ e = .keyError ∨ e = .typeError then .error .validationError
    else .error e

/-- Counterexample to claim C5: an entry with a plain `"year"` field (and
one with no year-bearing field at all) makes the block fall through
silently — no year is extracted from `"year"` and no `ValidationError`
is raised for the missing year. -/
theorem year_missing_no_validation_error :
    extractYear [("year", .int 2019)] = .ok none ∧
    extractYear [("title", .str "T")] = .ok none := ⟨rfl, rfl⟩

/-- Amended claim C5: the year is read only from the `issued` field —
`int(issued['date-parts'][0][0])` when `date-parts` is present, else
`int(issued['raw'][0].strip()[:4])` — a `ValueError`/`KeyError`/
`TypeError` during the attempt becomes `ValidationError`, an entry
without `issued` leaves the year untouched and raises nothing, a
string-valued `raw` yields the integer of its first character alone,
and an `IndexError` (empty `date-parts`) escapes as-is rather than as
`ValidationError`. -/
theorem year_from_issued_only (entry : List (String × PyVal))
    (issuedKvs : List (String × PyVal)) (y : Int) (rest0 : List PyVal)
    (rest : List PyVal)
    (h1 : entry.find? (fun kv => kv.1 == "issued") = some ("issued", .dict issuedKvs))
    (h2 : issuedKvs.find? (fun kv => kv.1 == "date-parts") =
      some ("date-parts", .list (.list (.int y :: rest0) :: rest))) :
    extractYear entry = .ok (some y) ∧
    (∀ e₂ : List (String × PyVal), (∀ kv ∈ e₂, kv.1 ≠ "issued") →
      extractYear e₂ = .ok none) ∧
    extractYear [("issued", .dict [("raw", .list [.str " 2019-05-01 "])])] =
      .ok (some 2019) ∧
    extractYear [("issued", .dict [("raw", .str "2019-05-01")])] = .ok (some 2) ∧
    extractYear [("issued", .int 3)] = .error .validationError ∧
    extractYear [("issued", .dict [("date-parts", .list [])])] = .error .indexError := by
  refine ⟨?_, ?_, rfl, rfl, rfl, rfl⟩
  · have hmem : ("issued", PyVal.dict issuedKvs) ∈ entry :=
      List.mem_of_find?_eq_some h1
    have hany : entry.any (fun kv => kv.1 == "issued") = true := by
      rw [List.any_eq_true]
      exact ⟨_, hmem, by simp⟩
    have hmem2 : ("date-parts", PyVal.list (.list (.int y :: rest0) :: rest)) ∈ issuedKvs :=
      List.mem_of_find?_eq_some h2
    have hany2 : issuedKvs.any (fun kv => kv.1 == "date-parts") = true := by
      rw [List.any_eq_true]
      exact ⟨_, hmem2, by simp⟩
    simp only [extractYear, extractYearInner, pyContains, hany, pyGetItem, h1, h2,
      bind, Except.bind, if_true]
    simp [hany2, pyGetItem, pyIntFn, pure, Except.pure]
  · intro e₂ hkv
    have hany : e₂.any (fun kv => kv.1 == "issued") = false := by
      rw [List.any_eq_false]
      intro kv hm
      simpa using hkv kv hm
    simp [extractYear, extractYearInner, pyContains, hany, bind, Except.bind,
      pure, Except.pure]

def amendedYearEntry : List (String × PyVal) :=
  [("title", .str "T"), ("issued", .dict [("date-parts", .list [.list [.int 2019, .int 5]])])]

/-- Witness for the amended C5 at a concrete CSL-JSON entry. -/
theorem year_from_issued_only_witness :
    extractYear amendedYearEntry = .ok (some 2019) ∧
    extractYear [("a", .int 1), ("b", .str "x")] = .ok none :=
  have h := year_from_issued_only amendedYearEntry
    [("date-parts", .list [.list [.int 2019, .int 5]])] 2019 [.int 5] []
    (by rfl) (by rfl)
  ⟨h.1, h.2.1 [("a", .int 1), ("b", .str "x")] (by decide)⟩

/-! ## WKT coordinate scanning (geometry.py, lines 6-8 and 64-91)

The regular expressions of geometry.py:

```
NUMBER     = [-+]?[0-9]*\.?[0-9]+([eE][-+]?[0-9]+)?
COORDINATE = \s*(NUMBER)\s+(NUMBER)\s*
```

`wkt_bounds` runs `COORDINATE.findall(value)` and converts the two
captured numerals of every match with `float`.  The matchers below are
the hand-compiled form of these regexes.  For this pattern the greedy
left-to-right parse coincides with Python's backtracking search: a
shorter alternative for a `NUMBER` can only end on a character the
maximal match would also consume — never on the whitespace that the
following `\s+` requires — so no backtracking alternative can rescue a
failed maximal parse.  Numeral values are exact rationals; `float`
conversion is monotone in the numeral's value, so the min/max structure
is preserved. -/

/-- Value of the numeral `d1 . d2` (integer digits, fraction digits).
The fraction-free case is split off so that the value is built in
normalized form (an integer numeral never needs the division). -/
def mantissaVal (d1 d2 : List Char) : ℚ :=
  if d2.isEmpty then (digitsToNat d1 : ℚ)
  else (digitsToNat (d1 ++ d2) : ℚ) / (10 : ℚ) ^ d2.length

/-- `m · 10^e`; the `e = 0` case (no exponent group matched) is split
off so that it is the mantissa value unchanged, in normalized form. -/
def applyExp (m : ℚ) (e : Int) : ℚ :=
  if e = 0 then m
  else if 0 ≤ e then m * (10 : ℚ) ^ e.toNat
  else m / (10 : ℚ) ^ (-e).toNat

/-- The `[0-9]+` tail of the optional exponent group: when no digit
follows, the whole group matches empty and the input rewinds to
`orig` (the position before the `e`/`E`). -/
def parseExpDigits (m : ℚ) (orig l : List Char) (sign : Int) : ℚ × List Char :=
  let ds := l.takeWhile Char.isDigit
  if ds.isEmpty then (m, orig)
  else (applyExp m (sign * (digitsToNat ds : Int)), l.dropWhile Char.isDigit)

def parseExpTail (m : ℚ) (orig rest : List Char) : ℚ × List Char :=
  match rest with
  | '+' :: r2 => parseExpDigits m orig r2 1
  | '-' :: r2 => parseExpDigits m orig r2 (-1)
  | _ => parseExpDigits m orig rest 1

/-- The optional `([eE][-+]?[0-9]+)?` exponent group. -/
def parseExponent (m : ℚ) (l : List Char) : ℚ × List Char :=
  match l with
  | 'e' :: rest => parseExpTail m l rest
  | 'E' :: rest => parseExpTail m l rest
  | _ => (m, l)

/-- Maximal match of `[0-9]*\.?[0-9]+` followed by the exponent group. -/
def parseNumberUnsigned (l : List Char) : Option (ℚ × List Char) :=
  let d1 := l.takeWhile Char.isDigit
  let r1 := l.dropWhile Char.isDigit
  match r1 with
  | '.' :: r2 =>
    let d2 := r2.takeWhile Char.isDigit
    if d2.isEmpty then
      if d1.isEmpty then none
      else some (parseExponent (mantissaVal d1 []) r1)
    else
      some (parseExponent (mantissaVal d1 d2) (r2.dropWhile Char.isDigit))
  | _ =>
    if d1.isEmpty then none
    else some (parseExponent (mantissaVal d1 []) r1)

/-- The full `NUMBER` regex, including the optional sign. -/
def parseNumber (l : List Char) : Option (ℚ × List Char) :=
  match l with
  | '+' :: t => parseNumberUnsigned t
  | '-' :: t => (parseNumberUnsigned t).map (fun vr => (-vr.1, vr.2))
  | _ => parseNumberUnsigned l

/-- The `COORDINATE` regex `\s*(NUMBER)\s+(NUMBER)\s*`, returning the
values of the two captured numerals and the unconsumed input. -/
def parseCoordinate (l : List Char) : Option (ℚ × ℚ × List Char) :=
  match parseNumber (l.dropWhile isPySpace) with
  | none => none
  | some (x, l2) =>
    match l2 with
    | [] => none
    | c :: t =>
      if isPySpace c then
        match parseNumber (t.dropWhile isPySpace) with
        | none => none
        | some (y, l4) => some (x, y, l4.dropWhile isPySpace)
      else none

/-- `re.findall` scanning: try a match at the current position; on
success continue after the consumed text, otherwise advance one
character.  A `COORDINATE` match is never empty, so the fuel
`length + 1` is never exhausted. -/
def scanCoordinates : Nat → List Char → List (ℚ × ℚ)
  | 0, _ => []
  | fuel + 1, l =>
    match l with
    | [] => []
    | _ :: t =>
      match parseCoordinate l with
      | some (x, y, rest) => (x, y) :: scanCoordinates fuel rest
      | none => scanCoordinates fuel t

def findallCoordinates (s : String) : List (ℚ × ℚ) :=
  scanCoordinates (s.toList.length + 1) s.toList

/-- The result dictionary of `wkt_bounds`: exactly the keys
`xmin`, `xmax`, `ymin`, `ymax`. -/
structure WktBounds where
  xmin : Option ℚ
  xmax : Option ℚ
  ymin : Option ℚ
  ymax : Option ℚ
deriving DecidableEq, Repr

def allNoneBounds : WktBounds := ⟨none, none, none, none⟩

/-- Python `min` of two values: the first argument is kept on ties. -/
def pyMin (a b : ℚ) : ℚ := if b < a then b else a

/-- Python `max` of two values: the first argument is kept on ties. -/
def pyMax (a b : ℚ) : ℚ := if a < b then b else a

def listMin (x : ℚ) (xs : List ℚ) : ℚ := xs.foldl pyMin x

def listMax (x : ℚ) (xs : List ℚ) : ℚ := xs.foldl pyMax x

/-- `wkt_bounds` (geometry.py lines 64-91): falsy (empty) input and an
input with no coordinate matches give the all-`None` dictionary; one
match gives a degenerate box; more matches give min/max over the X and
Y components of all matches. -/
def wkt_bounds (s : String) : WktBounds :=
  if s = "" then allNoneBounds
  else
    match findallCoordinates s with
    | [] => allNoneBounds
    | [c] => ⟨some c.1, some c.1, some c.2, some c.2⟩
    | c :: cs =>
      ⟨some (listMin c.1 (cs.map Prod.fst)), some (listMax c.1 (cs.map Prod.fst)),
       some (listMin c.2 (cs.map Prod.snd)), some (listMax c.2 (cs.map Prod.snd))⟩

theorem pyMin_le_left (a b : ℚ) : pyMin a b ≤ a := by
  unfold pyMin
  split
  · exact le_of_lt (by assumption)
  · exact le_refl a

theorem left_le_pyMax (a b : ℚ) : a ≤ pyMax a b := by
  unfold pyMax
  split
  · exact le_of_lt (by assumption)
  · exact le_refl a

theorem listMin_le_self (xs : List ℚ) : ∀ x : ℚ, listMin x xs ≤ x := by
  induction xs with
  | nil => intro x; exact le_refl x
  | cons y t ih =>
    intro x
    exact le_trans (ih (pyMin x y)) (pyMin_le_left x y)

theorem self_le_listMax (xs : List ℚ) : ∀ x : ℚ, x ≤ listMax x xs := by
  induction xs with
  | nil => intro x; exact le_refl x
  | cons y t ih =>
    intro x
    exact le_trans (left_le_pyMax x y) (ih (pyMax x y))

/-- Claim C6: `wkt_bounds` extracts every coordinate pair the
`COORDINATE` sub-grammar finds anywhere in the text — validity of the
whole geometry is never required — and returns min/max over all X and
all Y values; with zero matches (blank input included) all four fields
are `None`; and the two examples from the spec hold, as does a
deliberately non-WKT input carrying one coordinate pair. -/
theorem wkt_bounds_minmax (s : String) :
    (findallCoordinates s = [] → wkt_bounds s = allNoneBounds) ∧
    (∀ c cs, findallCoordinates s = c :: cs →
      wkt_bounds s =
        ⟨some (listMin c.1 (cs.map Prod.fst)), some (listMax c.1 (cs.map Prod.fst)),
         some (listMin c.2 (cs.map Prod.snd)), some (listMax c.2 (cs.map Prod.snd))⟩) ∧
    wkt_bounds "" = allNoneBounds ∧
    wkt_bounds "POINT (1 2)" = ⟨some 1, some 1, some 2, some 2⟩ ∧
    wkt_bounds "LINESTRING (0 0, 4 4)" = ⟨some 0, some 4, some 0, some 4⟩ ∧
    wkt_bounds "no geometry, but 7 8 occurs" = ⟨some 7, some 7, some 8, some 8⟩ := by
  refine ⟨?_, ?_, by decide, by decide, by decide, by decide⟩
  · intro h
    by_cases hs : s = ""
    · simp [wkt_bounds, hs]
    · simp [wkt_bounds, hs, h]
  · intro c cs h
    by_cases hs : s = ""
    · rw [hs] at h
      have h0 : findallCoordinates "" = [] := by decide
      rw [h0] at h
      exact absurd h (by simp)
    · cases cs with
      | nil => simp [wkt_bounds, hs, h, listMin, listMax]
      | cons c2 t => simp [wkt_bounds, hs, h]

/-- Witness for C6 at concrete inputs. -/
theorem wkt_bounds_minmax_witness :
    wkt_bounds "x" = allNoneBounds ∧
    wkt_bounds "POINT (1 2)" = ⟨some 1, some 1, some 2, some 2⟩ :=
  ⟨(wkt_bounds_minmax "x").1 (by decide),
   (wkt_bounds_minmax "POINT (1 2)").2.1 (1, 2) [] (by decide)⟩

/-- Claim C10: `wkt_bounds` is total (it is a Lean function on strings
returning a record with exactly the four bound fields) and its result is
always a well-formed box: either all four fields are `None` or all four
are numbers with `xmin ≤ xmax` and `ymin ≤ ymax`. -/
theorem wkt_bounds_wellformed (s : String) :
    wkt_bounds s = allNoneBounds ∨
    ∃ a b c d : ℚ, wkt_bounds s = ⟨some a, some b, some c, some d⟩ ∧
      a ≤ b ∧ c ≤ d := by
  by_cases hs : s = ""
  · left; simp [wkt_bounds, hs]
  · cases h : findallCoordinates s with
    | nil => left; simp [wkt_bounds, hs, h]
    | cons c cs =>
      right
      cases cs with
      | nil =>
        exact ⟨c.1, c.1, c.2, c.2, by simp [wkt_bounds, hs, h],
          le_refl _, le_refl _⟩
      | cons c2 t =>
        refine ⟨listMin c.1 ((c2 :: t).map Prod.fst),
          listMax c.1 ((c2 :: t).map Prod.fst),
          listMin c.2 ((c2 :: t).map Prod.snd),
          listMax c.2 ((c2 :: t).map Prod.snd),
          by simp [wkt_bounds, hs, h], ?_, ?_⟩
        · exact le_trans (listMin_le_self _ _) (self_le_listMax _ _)
        · exact le_trans (listMin_le_self _ _) (self_le_listMax _ _)

/-! ## WKT geometry grammars (geometry.py, lines 10-61)

Hand-compiled forms of the anchored (`fullmatch`) geometry regexes.
Each star-loop takes a fuel argument; callers pass `length + 1`, and a
loop iteration always consumes at least the separating comma, so fuel
never runs out on any input.  As with `COORDINATE`, greedy parsing
coincides with the backtracking regex search: sub-matches (numerals,
coordinates, whitespace runs) end at deterministic positions, and a
shorter alternative always leaves a character the follow-up pattern
cannot accept. -/

def parseCoordSkip (l : List Char) : Option (List Char) :=
  (parseCoordinate l).map (fun r => r.2.2)

/-- `\s+` (at least one whitespace character, consumed greedily). -/
def parseSpaces1 : List Char → Option (List Char)
  | [] => none
  | c :: t => if isPySpace c then some (t.dropWhile isPySpace) else none

/-- The `(,COORDINATE)*\)` tail of `COORDINATES`. -/
def parseCoordListTail : Nat → List Char → Option (List Char)
  | _, ')' :: r => some r
  | 0, _ => none
  | fuel + 1, ',' :: t =>
    match parseCoordSkip t with
    | none => none
    | some r => parseCoordListTail fuel r
  | _ + 1, _ => none

/-- `COORDINATES = \((COORDINATE)(,COORDINATE)*\)`. -/
def parseCoordList (fuel : Nat) (l : List Char) : Option (List Char) :=
  match l with
  | '(' :: t =>
    match parseCoordSkip t with
    | none => none
    | some r => parseCoordListTail fuel r
  | _ => none

/-- The parenthesized point `\s*\(COORDINATE\s*\)` of
`MULTIPOINT_COORDINATES`. -/
def parseParenCoord (l : List Char) : Option (List Char) :=
  match l.dropWhile isPySpace with
  | '(' :: t =>
    match parseCoordSkip t with
    | none => none
    | some r =>
      match r.dropWhile isPySpace with
      | ')' :: r2 => some r2
      | _ => none
  | _ => none

def parseMultipointTail : Nat → List Char → Option (List Char)
  | _, ')' :: r => some r
  | 0, _ => none
  | fuel + 1, ',' :: t =>
    match parseParenCoord t with
    | none => none
    | some r => parseMultipointTail fuel r
  | _ + 1, _ => none

/-- `MULTIPOINT_COORDINATES`: a parenthesized comma-separated list of
parenthesized points. -/
def parseMultipointList (fuel : Nat) (l : List Char) : Option (List Char) :=
  match l with
  | '(' :: t =>
    match parseParenCoord t with
    | none => none
    | some r => parseMultipointTail fuel r
  | _ => none

def parsePolyTail (fuelInner : Nat) : Nat → List Char → Option (List Char)
  | _, ')' :: r => some r
  | 0, _ => none
  | fuel + 1, ',' :: t =>
    match parseCoordList fuelInner (t.dropWhile isPySpace) with
    | none => none
    | some r => parsePolyTail fuelInner fuel (r.dropWhile isPySpace)
  | _ + 1, _ => none

/-- `POLYGON_COORDINATES = \(\s*COORDINATES\s*(,\s*COORDINATES\s*)*\)`. -/
def parsePolyList (fuel : Nat) (l : List Char) : Option (List Char) :=
  match l with
  | '(' :: t =>
    match parseCoordList fuel (t.dropWhile isPySpace) with
    | none => none
    | some r => parsePolyTail fuel fuel (r.dropWhile isPySpace)
  | _ => none

def parseMultiPolyTail (fuelInner : Nat) : Nat → List Char → Option (List Char)
  | _, ')' :: r => some r
  | 0, _ => none
  | fuel + 1, ',' :: t =>
    match parsePolyList fuelInner (t.dropWhile isPySpace) with
    | none => none
    | some r => parseMultiPolyTail fuelInner fuel (r.dropWhile isPySpace)
  | _ + 1, _ => none

/-- The body of `MULTIPOLYGON`: a parenthesized comma-separated list of
`POLYGON_COORDINATES`. -/
def parseMultiPolyList (fuel : Nat) (l : List Char) : Option (List Char) :=
  match l with
  | '(' :: t =>
    match parsePolyList fuel (t.dropWhile isPySpace) with
    | none => none
    | some r => parseMultiPolyTail fuel fuel (r.dropWhile isPySpace)
  | _ => none

/-- `POINT`'s body `\(COORDINATE\)`. -/
def parsePointBody (l : List Char) : Option (List Char) :=
  match l with
  | '(' :: t =>
    match parseCoordSkip t with
    | none => none
    | some r =>
      match r with
      | ')' :: r2 => some r2
      | _ => none
  | _ => none

def kwPOINT : List Char := ['P', 'O', 'I', 'N', 'T']

def kwLINESTRING : List Char :=
  ['L', 'I', 'N', 'E', 'S', 'T', 'R', 'I', 'N', 'G']

def kwPOLYGON : List Char := ['P', 'O', 'L', 'Y', 'G', 'O', 'N']

def kwMULTIPOINT : List Char :=
  ['M', 'U', 'L', 'T', 'I', 'P', 'O', 'I', 'N', 'T']

def kwMULTILINESTRING : List Char :=
  ['M', 'U', 'L', 'T', 'I', 'L', 'I', 'N', 'E', 'S', 'T', 'R', 'I', 'N', 'G']

def kwMULTIPOLYGON : List Char :=
  ['M', 'U', 'L', 'T', 'I', 'P', 'O', 'L', 'Y', 'G', 'O', 'N']

/-- The literal keyword at the start of every geometry regex. -/
def expectChars : List Char → List Char → Option (List Char)
  | [], l => some l
  | _ :: _, [] => none
  | c :: cs, x :: xs => if c == x then expectChars cs xs else none

/-- Keyword dispatch common to all six `fullmatch` checks. -/
def kwThen (kw : List Char) (rest : List Char → Bool) (s : String) : Bool :=
  match expectChars kw s.toList with
  | none => false
  | some l1 => rest l1

def fullmatchPOINT (s : String) : Bool :=
  kwThen kwPOINT (fun l1 =>
    match parseSpaces1 l1 with
    | none => false
    | some l2 =>
      match parsePointBody l2 with
      | some [] => true
      | _ => false) s

def fullmatchLINESTRING (s : String) : Bool :=
  kwThen kwLINESTRING (fun l1 =>
    match parseSpaces1 l1 with
    | none => false
    | some l2 =>
      match parseCoordList (l2.length + 1) l2 with
      | some [] => true
      | _ => false) s

def fullmatchPOLYGON (s : String) : Bool :=
  kwThen kwPOLYGON (fun l1 =>
    match parseSpaces1 l1 with
    | none => false
    | some l2 =>
      match parsePolyList (l2.length + 1) l2 with
      | some [] => true
      | _ => false) s

/-- `MULTIPOINT` accepts the parenthesized-point-list form or the bare
`COORDINATES` form (the regex alternation, first branch first). -/
def fullmatchMULTIPOINT (s : String) : Bool :=
  kwThen kwMULTIPOINT (fun l1 =>
    match parseSpaces1 l1 with
    | none => false
    | some l2 =>
      (match parseMultipointList (l2.length + 1) l2 with
       | some [] => true
       | _ => false) ||
      (match parseCoordList (l2.length + 1) l2 with
       | some [] => true
       | _ => false)) s

def fullmatchMULTILINESTRING (s : String) : Bool :=
  kwThen kwMULTILINESTRING (fun l1 =>
    match parseSpaces1 l1 with
    | none => false
    | some l2 =>
      match parsePolyList (l2.length + 1) l2 with
      | some [] => true
      | _ => false) s

def fullmatchMULTIPOLYGON (s : String) : Bool :=
  kwThen kwMULTIPOLYGON (fun l1 =>
    match parseSpaces1 l1 with
    | none => false
    | some l2 =>
      match parseMultiPolyList (l2.length + 1) l2 with
      | some [] => true
      | _ => false) s

/-- `identify_geometry` (geometry.py lines 43-61): `'EMPTY'` for falsy
input, else the first matching grammar in source order, else `None`. -/
def identify_geometry (s : String) : Option String :=
  if s = "" then some "EMPTY"
  else if fullmatchPOINT s then some "POINT"
  else if fullmatchLINESTRING s then some "LINESTRING"
  else if fullmatchPOLYGON s then some "POLYGON"
  else if fullmatchMULTIPOINT s then some "MULTIPOINT"
  else if fullmatchMULTILINESTRING s then some "MULTILINESTRING"
  else if fullmatchMULTIPOLYGON s then some "MULTIPOLYGON"
  else none

/-- `validate_wkt` (geometry.py lines 37-40): raises `ValidationError`
exactly when `identify_geometry` is falsy, and `None` is its only falsy
result (every returned type name is a non-empty, hence truthy,
string). -/
def validate_wkt (s : String) : Except Unit Unit :=
  match identify_geometry s with
  | none => .error ()
  | some _ => .ok ()

theorem expectChars_eq_append (kw : List Char) :
    ∀ l r, expectChars kw l = some r → l = kw ++ r := by
  induction kw with
  | nil =>
    intro l r h
    simpa [expectChars] using h
  | cons c cs ih =>
    intro l r h
    cases l with
    | nil => simp [expectChars] at h
    | cons x xs =>
      simp only [expectChars] at h
      split at h
      · rename_i hcx
        have hc : c = x := by simpa using hcx
        rw [← hc, ih xs r h]
        rfl
      · exact absurd h (by simp)

theorem append_keyword_clash {k1 k2 : List Char} {i : Nat} {c1 c2 : Char}
    (h1 : k1.get? i = some c1) (h2 : k2.get? i = some c2) (hc : c1 ≠ c2)
    (r1 r2 : List Char) : k1 ++ r1 ≠ k2 ++ r2 := by
  intro he
  have hl1 : i < k1.length := by
    by_contra hh
    rw [List.get?_eq_none.mpr (Nat.le_of_not_lt hh)] at h1
    exact absurd h1 (by simp)
  have hl2 : i < k2.length := by
    by_contra hh
    rw [List.get?_eq_none.mpr (Nat.le_of_not_lt hh)] at h2
    exact absurd h2 (by simp)
  have e1 : (k1 ++ r1).get? i = some c1 := by
    rw [List.get?_append hl1]; exact h1
  have e2 : (k2 ++ r2).get? i = some c2 := by
    rw [List.get?_append hl2]; exact h2
  rw [he, e2] at e1
  exact hc (by simpa using e1.symm)

theorem kwThen_head {kw : List Char} {rest : List Char → Bool} {s : String}
    (h : kwThen kw rest s = true) : ∃ r, s.toList = kw ++ r := by
  unfold kwThen at h
  cases he : expectChars kw s.toList with
  | none => rw [he] at h; simp at h
  | some l1 => exact ⟨l1, expectChars_eq_append kw _ _ he⟩

theorem kwThen_false_of_clash {kw1 kw2 : List Char} {r : List Char} {s : String}
    (rest : List Char → Bool) {i : Nat} {c1 c2 : Char}
    (hr : s.toList = kw1 ++ r)
    (h1 : kw1.get? i = some c1) (h2 : kw2.get? i = some c2) (hc : c1 ≠ c2) :
    kwThen kw2 rest s = false := by
  cases hp : kwThen kw2 rest s with
  | false => rfl
  | true =>
    obtain ⟨r2, hr2⟩ := kwThen_head hp
    exact absurd (hr.symm.trans hr2) (append_keyword_clash h1 h2 hc r r2)

/-- Claim C7: `identify_geometry` returns `EMPTY` for blank input, the
matching type for every string full-matching one of the six grammars
(`MULTIPOINT` in either of its two forms), `None` for every other
string, and `validate_wkt` fails exactly when `identify_geometry`
returns `None` for its non-empty input.  The conjuncts cover: the
dispatch of each grammar (exclusivity of the keywords makes the source
order irrelevant), the `None` fall-through, the `validate_wkt`
characterization, and concrete examples of all six types, both
`MULTIPOINT` forms included, plus an unrecognized input. -/
theorem identify_geometry_spec (s : String) :
    identify_geometry "" = some "EMPTY" ∧
    (fullmatchPOINT s = true → identify_geometry s = some "POINT") ∧
    (fullmatchLINESTRING s = true → identify_geometry s = some "LINESTRING") ∧
    (fullmatchPOLYGON s = true → identify_geometry s = some "POLYGON") ∧
    (fullmatchMULTIPOINT s = true → identify_geometry s = some "MULTIPOINT") ∧
    (fullmatchMULTILINESTRING s = true →
      identify_geometry s = some "MULTILINESTRING") ∧
    (fullmatchMULTIPOLYGON s = true →
      identify_geometry s = some "MULTIPOLYGON") ∧
    (s ≠ "" → fullmatchPOINT s = false → fullmatchLINESTRING s = false →
      fullmatchPOLYGON s = false → fullmatchMULTIPOINT s = false →
      fullmatchMULTILINESTRING s = false → fullmatchMULTIPOLYGON s = false →
      identify_geometry s = none) ∧
    (validate_wkt s = .error () ↔ s ≠ "" ∧ identify_geometry s = none) ∧
    identify_geometry "POINT (30 10)" = some "POINT" ∧
    identify_geometry "LINESTRING (30 10, 10 30, 40 40)" = some "LINESTRING" ∧
    identify_geometry "POLYGON ((30 10, 40 40, 20 40, 10 20, 30 10))" =
      some "POLYGON" ∧
    identify_geometry "MULTIPOINT ((10 40), (40 30), (20 20))" =
      some "MULTIPOINT" ∧
    identify_geometry "MULTIPOINT (10 40, 40 30, 20 20)" = some "MULTIPOINT" ∧
    identify_geometry "MULTILINESTRING ((10 10, 20 20), (40 40, 30 30))" =
      some "MULTILINESTRING" ∧
    identify_geometry
      "MULTIPOLYGON (((30 20, 45 40, 10 40, 30 20)), ((15 5, 40 10, 10 20, 15 5)))" =
      some "MULTIPOLYGON" ∧
    identify_geometry "POINT(1 2)" = none ∧
    identify_geometry "banana" = none := by
  have hEmptyToList : ("" : String).toList = [] := rfl
  refine ⟨rfl, ?_, ?_, ?_, ?_, ?_, ?_, ?_, ?_, by decide, by decide, by decide,
    by decide, by decide, by decide, by decide, by decide, by decide⟩
  · intro h
    obtain ⟨r, hr⟩ := kwThen_head h
    have hne : s ≠ "" := by
      intro he
      rw [he, hEmptyToList] at hr
      exact absurd hr (by simp [kwPOINT])
    simp [identify_geometry, hne, h]
  · intro h
    obtain ⟨r, hr⟩ := kwThen_head h
    have hne : s ≠ "" := by
      intro he
      rw [he, hEmptyToList] at hr
      exact absurd hr (by simp [kwLINESTRING])
    have f1 : fullmatchPOINT s = false :=
      kwThen_false_of_clash _ hr (i := 0) rfl rfl (by decide)
    simp [identify_geometry, hne, f1, h]
  · intro h
    obtain ⟨r, hr⟩ := kwThen_head h
    have hne : s ≠ "" := by
      intro he
      rw [he, hEmptyToList] at hr
      exact absurd hr (by simp [kwPOLYGON])
    have f1 : fullmatchPOINT s = false :=
      kwThen_false_of_clash _ hr (i := 2) rfl rfl (by decide)
    have f2 : fullmatchLINESTRING s = false :=
      kwThen_false_of_clash _ hr (i := 0) rfl rfl (by decide)
    simp [identify_geometry, hne, f1, f2, h]
  · intro h
    obtain ⟨r, hr⟩ := kwThen_head h
    have hne : s ≠ "" := by
      intro he
      rw [he, hEmptyToList] at hr
      exact absurd hr (by simp [kwMULTIPOINT])
    have f1 : fullmatchPOINT s = false :=
      kwThen_false_of_clash _ hr (i := 0) rfl rfl (by decide)
    have f2 : fullmatchLINESTRING s = false :=
      kwThen_false_of_clash _ hr (i := 0) rfl rfl (by decide)
    have f3 : fullmatchPOLYGON s = false :=
      kwThen_false_of_clash _ hr (i := 0) rfl rfl (by decide)
    simp [identify_geometry, hne, f1, f2, f3, h]
  · intro h
    obtain ⟨r, hr⟩ := kwThen_head h
    have hne : s ≠ "" := by
      intro he
      rw [he, hEmptyToList] at hr
      exact absurd hr (by simp [kwMULTILINESTRING])
    have f1 : fullmatchPOINT s = false :=
      kwThen_false_of_clash _ hr (i := 0) rfl rfl (by decide)
    have f2 : fullmatchLINESTRING s = false :=
      kwThen_false_of_clash _ hr (i := 0) rfl rfl (by decide)
    have f3 : fullmatchPOLYGON s = false :=
      kwThen_false_of_clash _ hr (i := 0) rfl rfl (by decide)
    have f4 : fullmatchMULTIPOINT s = false :=
      kwThen_false_of_clash _ hr (i := 5) rfl rfl (by decide)
    simp [identify_geometry, hne, f1, f2, f3, f4, h]
  · intro h
    obtain ⟨r, hr⟩ := kwThen_head h
    have hne : s ≠ "" := by
      intro he
      rw [he, hEmptyToList] at hr
      exact absurd hr (by simp [kwMULTIPOLYGON])
    have f1 : fullmatchPOINT s = false :=
      kwThen_false_of_clash _ hr (i := 0) rfl rfl (by decide)
    have f2 : fullmatchLINESTRING s = false :=
      kwThen_false_of_clash _ hr (i := 0) rfl rfl (by decide)
    have f3 : fullmatchPOLYGON s = false :=
      kwThen_false_of_clash _ hr (i := 0) rfl rfl (by decide)
    have f4 : fullmatchMULTIPOINT s = false :=
      kwThen_false_of_clash _ hr (i := 7) rfl rfl (by decide)
    have f5 : fullmatchMULTILINESTRING s = false :=
      kwThen_false_of_clash _ hr (i := 5) rfl rfl (by decide)
    simp [identify_geometry, hne, f1, f2, f3, f4, f5, h]
  · intro hne h1 h2 h3 h4 h5 h6
    simp [identify_geometry, hne, h1, h2, h3, h4, h5, h6]
  · constructor
    · intro hv
      cases hi : identify_geometry s with
      | some g => simp [validate_wkt, hi] at hv
      | none =>
        refine ⟨?_, rfl⟩
        intro he
        rw [he] at hi
        simp [identify_geometry] at hi
    · rintro ⟨hne, hi⟩
      simp [validate_wkt, hi]

/-- Witness for C7: the quantified conjuncts applied at concrete inputs. -/
theorem identify_geometry_spec_witness :
    identify_geometry "POINT (30 10)" = some "POINT" ∧
    identify_geometry "MULTIPOLYGON (((0 0, 1 0, 1 1, 0 0)))" =
      some "MULTIPOLYGON" ∧
    identify_geometry "POINT (1 2" = none ∧
    (validate_wkt "POINT (1 2" = .error () ↔
      ("POINT (1 2" : String) ≠ "" ∧ identify_geometry "POINT (1 2" = none) :=
  ⟨(identify_geometry_spec "POINT (30 10)").2.1 (by decide),
   (identify_geometry_spec "MULTIPOLYGON (((0 0, 1 0, 1 1, 0 0)))").2.2.2.2.2.2.1
     (by decide),
   (identify_geometry_spec "POINT (1 2").2.2.2.2.2.2.2.1 (by decide) (by decide)
     (by decide) (by decide) (by decide) (by decide) (by decide),
   (identify_geometry_spec "POINT (1 2").2.2.2.2.2.2.2.2.1⟩

/-! ## Person merge (models.py, `Person.combine_people`, lines 206-244)

The tables touched by a merge.  `content_type` of the generic rows is
fixed to `Person` (the only owner kind the merge ever queries), so a
tag/attachment row carries its owner's person id in `object_id`.
`TagRow.pk` stands for the row's primary key: a `tag.save()` after
mutating a fetched row writes back by primary key.

Python exceptions of the merge:
* `max([])` raises `ValueError` (combine called with an empty input);
* the bulk `Alias.objects.filter(...).update(person=target)` raises
  `IntegrityError` when the updated table would violate the
  `unique_together = ['person', 'alias']` constraint;
* `target_person.tags.get(type=..., key=...)` and the corresponding
  attachments `get` raise `MultipleObjectsReturned` on two or more
  matches (impossible while the declared per-owner uniqueness holds);
* the attachments loop catches `Tag.DoesNotExist` (models.py line 237)
  while `.attachments.get(...)` raises `Attachment.DoesNotExist` —
  a sibling class that the except clause does not catch — so a loser
  attachment with no same-`(type, key)` attachment on the survivor
  escapes as an uncaught exception.

`renamed_person.delete()` removes the person row; the generic relations
cascade, deleting whatever tags/attachments still sit on the loser.
(`ContactInfo` also cascades; no claim mentions it and it is left out.)
All `Authorship`/`RecordAuthorship` rows of the loser were repointed
before the delete, so the `PROTECT` constraint on their person foreign
key never fires. -/

structure AuthorshipRow where
  publication : Nat
  person : Nat
  role : String
  order : Int
deriving DecidableEq, Repr

structure RecordAuthorshipRow where
  record : Nat
  person : Nat
  role : String
  order : Int
deriving DecidableEq, Repr

structure TagRow where
  pk : Nat
  object_id : Nat
  type : String
  key : String
  value : String
deriving DecidableEq, Repr

structure AttachmentRow where
  object_id : Nat
  type : String
  key : String
  file : String
deriving DecidableEq, Repr

structure MergeDB where
  persons : List Nat
  aliases : List AliasRow
  authorships : List AuthorshipRow
  recordAuthorships : List RecordAuthorshipRow
  tags : List TagRow
  attachments : List AttachmentRow
deriving DecidableEq, Repr

inductive MergeExc where
  | valueError
  | integrityError
  | attachmentDoesNotExist
  | multipleObjectsReturned
deriving DecidableEq, Repr

/-- `p.authorships.all().count()`. -/
def authorshipCount (db : MergeDB) (p : Nat) : Nat :=
  (db.authorships.filter (fun a => a.person == p)).length

/-- Python `max` over a non-empty list, folded left to right. -/
def pyMaxAux (x : Nat) : List Nat → Nat
  | [] => x
  | y :: t => pyMaxAux (max x y) t

/-- `[i for i, n in enumerate(ns) if p(n)][0]` (defined when a match
exists; returns the length otherwise). -/
def pyFirstIndex (p : Nat → Bool) : List Nat → Nat
  | [] => 0
  | x :: t => if p x then 0 else pyFirstIndex p t + 1

/-- `people[i]` (0 when out of range; never used out of range). -/
def pyAt : List Nat → Nat → Nat
  | [], _ => 0
  | x :: _, 0 => x
  | _ :: t, n + 1 => pyAt t n

/-- `people.pop(i)`: the list with index `i` removed. -/
def pyPop : List Nat → Nat → List Nat
  | [], _ => []
  | _ :: t, 0 => t
  | x :: t, n + 1 => x :: pyPop t n

def maxPubsOf (db : MergeDB) (people : List Nat) : Nat :=
  match people.map (authorshipCount db) with
  | [] => 0
  | c :: cs => pyMaxAux c cs

def survivorIdx (db : MergeDB) (people : List Nat) : Nat :=
  pyFirstIndex (fun n => n == maxPubsOf db people) (people.map (authorshipCount db))

def survivorOf (db : MergeDB) (people : List Nat) : Nat :=
  pyAt people (survivorIdx db people)

def losersOf (db : MergeDB) (people : List Nat) : List Nat :=
  pyPop people (survivorIdx db people)

def repointAlias (target loser : Nat) (a : AliasRow) : AliasRow :=
  if a.person == loser then { a with person := target } else a

/-- Whether a list of alias rows violates
`unique_together = ['person', 'alias']`. -/
def hasDupAlias : List AliasRow → Bool
  | [] => false
  | a :: t =>
    t.any (fun b => a.person == b.person && a.aliasStr == b.aliasStr) ||
      hasDupAlias t

def repointAuthorship (target loser : Nat) (a : AuthorshipRow) : AuthorshipRow :=
  if a.person == loser then { a with person := target } else a

def repointRecordAuthorship (target loser : Nat) (a : RecordAuthorshipRow) :
    RecordAuthorshipRow :=
  if a.person == loser then { a with person := target } else a

/-- `tag.object_id = target; tag.save()`: write-back by primary key. -/
def moveTag (target pk : Nat) (l : List TagRow) : List TagRow :=
  l.map (fun u => if u.pk == pk then { u with object_id := target } else u)

/-- The rows `target_person.tags.get(type=.., key=..)` would see. -/
def tagMatches (target : Nat) (tg : TagRow) (cur : List TagRow) : List TagRow :=
  cur.filter (fun u => u.object_id == target && u.type == tg.type && u.key == tg.key)

/-- The tag loop of the merge: iterate the snapshot of the loser's tags;
`DoesNotExist` (zero matches) moves the tag to the survivor, one match
leaves the loser's copy behind, several matches raise. -/
def tagLoop (target : Nat) : List TagRow → List TagRow → Except MergeExc (List TagRow)
  | [], cur => .ok cur
  | tg :: rest, cur =>
    match tagMatches target tg cur with
    | [] => tagLoop target rest (moveTag target tg.pk cur)
    | [_] => tagLoop target rest cur
    | _ => .error .multipleObjectsReturned

def attMatches (target : Nat) (a : AttachmentRow) (cur : List AttachmentRow) :
    List AttachmentRow :=
  cur.filter (fun u => u.object_id == target && u.type == a.type && u.key == a.key)

/-- The attachment loop: zero matches raises `Attachment.DoesNotExist`,
which the `except Tag.DoesNotExist` clause does not catch, so the whole
merge fails; one match skips (the intended move never happens at all in
a successful merge). -/
def attLoop (target : Nat) (cur : List AttachmentRow) :
    List AttachmentRow → Except MergeExc Unit
  | [] => .ok ()
  | a :: rest =>
    match attMatches target a cur with
    | [] => .error .attachmentDoesNotExist
    | [_] => attLoop target cur rest
    | _ => .error .multipleObjectsReturned

/-- The body of the `for renamed_person in people:` loop for one loser:
bulk alias update, row-wise authorship and record-authorship repoints,
tag reconciliation, attachment loop, then `renamed_person.delete()`
with its cascades. -/
def mergeOne (target loser : Nat) (db : MergeDB) : Except MergeExc MergeDB :=
  if hasDupAlias (db.aliases.map (repointAlias target loser)) then
    .error .integrityError
  else
    match tagLoop target (db.tags.filter (fun u => u.object_id == loser)) db.tags with
    | .error e => .error e
    | .ok newTags =>
      match attLoop target db.attachments
          (db.attachments.filter (fun a => a.object_id == loser)) with
      | .error e => .error e
      | .ok _ =>
        .ok { persons := db.persons.filter (fun p => p != loser)
              aliases := db.aliases.map (repointAlias target loser)
              authorships := db.authorships.map (repointAuthorship target loser)
              recordAuthorships :=
                db.recordAuthorships.map (repointRecordAuthorship target loser)
              tags := newTags.filter (fun u => u.object_id != loser)
              attachments := db.attachments.filter (fun a => a.object_id != loser) }

def mergeLoop (target : Nat) : List Nat → MergeDB → Except MergeExc (MergeDB × Nat)
  | [], db => .ok (db, target)
  | loser :: rest, db =>
    match mergeOne target loser db with
    | .error e => .error e
    | .ok db2 => mergeLoop target rest db2

/-- `Person.combine_people` — the survivor is the person with the most
authorships (first such index on ties), every other person is merged
into it in input order, and the survivor is returned. -/
def combine_people (db : MergeDB) (people : List Nat) :
    Except MergeExc (MergeDB × Nat) :=
  match people with
  | [] => .error .valueError
  | _ :: _ => mergeLoop (survivorOf db people) (losersOf db people) db

def mergeDbC3 : MergeDB :=
  { persons := [1, 2]
    aliases := []
    authorships := [⟨10, 1, "author", 0⟩]
    recordAuthorships := []
    tags := []
    attachments := [⟨2, "attachment", "cv", "cv.pdf"⟩] }

def mergeDbC3b : MergeDB :=
  { persons := [1, 2]
    aliases := []
    authorships := [⟨10, 1, "author", 0⟩]
    recordAuthorships := []
    tags := [⟨1, 1, "tag", "dept", "A"⟩, ⟨2, 2, "tag", "dept", "B"⟩,
             ⟨3, 2, "tag", "orcid", "X"⟩]
    attachments := [⟨1, "attachment", "cv", "a.pdf"⟩,
                    ⟨2, "attachment", "cv", "b.pdf"⟩] }

/-- Claim C3, against the code: a loser attachment whose `(type, key)`
the survivor does NOT carry makes the merge raise the uncaught
`Attachment.DoesNotExist` instead of moving the attachment (first
conjunct — the wrong exception class is caught at models.py line 237).
When every loser attachment collides, the merge completes, the
survivor's copies win, the loser's colliding tag is discarded and its
non-colliding tag is moved (second conjunct). -/
theorem combine_people_attachment_crash :
    combine_people mergeDbC3 [1, 2] = .error .attachmentDoesNotExist ∧
    combine_people mergeDbC3b [1, 2] =
      .ok ({ persons := [1]
             aliases := []
             authorships := [⟨10, 1, "author", 0⟩]
             recordAuthorships := []
             tags := [⟨1, 1, "tag", "dept", "A"⟩, ⟨3, 1, "tag", "orcid", "X"⟩]
             attachments := [⟨1, "attachment", "cv", "a.pdf"⟩] }, 1) := by
  refine ⟨by decide, by decide⟩

/-! ## CSL-JSON import: secondary dedup pass
(models.py, `Publication.import_csl_json`, lines 514-530)

Right after `pub.update_from_csl_json(...)` and `pub.save()` the code
runs

```
slug_base = re.sub(r'[a-z]$', '', pub.slug)
existing_pub = Publication.objects.get(title=pub.title, slug__startswith=slug_base)
pub.delete()
existing_pub.update_from_csl_json(...); existing_pub.save(); pub = existing_pub
```

catching only `Publication.DoesNotExist`.  The query is evaluated on a
table that already contains the freshly saved `pub`, and `pub` always
matches its own `(title, slug_base)` query. -/

structure PubRow where
  pk : Nat
  slug : String
  title : String
deriving DecidableEq, Repr

/-- `re.sub(r'[a-z]$', '', slug)`: drop a trailing lowercase ASCII
letter. -/
def stripTrailingDisambig (s : String) : String :=
  match s.toList.getLast? with
  | some c => if 'a' ≤ c && c ≤ 'z' then String.mk s.toList.dropLast else s
  | none => s

inductive PubLookup where
  | doesNotExist
  | found (p : PubRow)
  | multipleObjectsReturned
deriving DecidableEq, Repr

/-- `Publication.objects.get(title=..., slug__startswith=...)`. -/
def getPubByTitleSlugBase (db : List PubRow) (title base : String) : PubLookup :=
  match db.filter (fun p => p.title == title && base.toList.isPrefixOf p.slug.toList) with
  | [] => .doesNotExist
  | [p] => .found p
  | _ => .multipleObjectsReturned

inductive DedupResult where
  /-- `except Publication.DoesNotExist: pass` — the saved row stays. -/
  | kept (db : List PubRow) (pub : PubRow)
  /-- `pub.delete()` ran and the entry is re-applied to `existing`. -/
  | reapplied (db : List PubRow) (existing : PubRow)
  /-- uncaught `MultipleObjectsReturned` aborts the chunk. -/
  | crashed
deriving DecidableEq, Repr

/-- The dedup block, entered with the publications table `db` already
containing the just-saved `pub`. -/
def dedupAfterSave (db : List PubRow) (pub : PubRow) : DedupResult :=
  match getPubByTitleSlugBase db pub.title (stripTrailingDisambig pub.slug) with
  | .doesNotExist => .kept db pub
  | .found q => .reapplied (db.filter (fun p => p.pk != pub.pk)) q
  | .multipleObjectsReturned => .crashed

/-- Claim C8, against the code: with a genuine pre-existing duplicate
(same title, same slug base) the query matches both the old row and the
just-saved row, so the uncaught `MultipleObjectsReturned` aborts the
chunk instead of re-applying the entry to the pre-existing publication
(first conjunct).  With no duplicate at all, the query finds the
just-saved row itself — the `DoesNotExist` branch is unreachable — and
the code deletes the just-created row before re-applying the entry to
the same object (second conjunct). -/
theorem import_dedup_self_match :
    dedupAfterSave [⟨1, "smith19", "T"⟩, ⟨2, "smith19a", "T"⟩]
      ⟨2, "smith19a", "T"⟩ = .crashed ∧
    dedupAfterSave [⟨1, "jones20", "U"⟩] ⟨1, "jones20", "U"⟩ =
      .reapplied [] ⟨1, "jones20", "U"⟩ ∧
    stripTrailingDisambig "smith19a" = "smith19" := by
  refine ⟨by decide, by decide, by decide⟩

/-! ## Claim C4: full characterization of a successful merge -/

def mergeDbC4 : MergeDB :=
  { persons := [7, 8]
    aliases := [⟨7, "Doe, J"⟩]
    authorships := [⟨30, 7, "author", 0⟩, ⟨31, 7, "author", 1⟩]
    recordAuthorships := []
    tags := []
    attachments := [⟨8, "attachment", "photo", "p.png"⟩] }

/-- Counterexample to claim C4 as stated: for the two distinct people
7 (two authorships, no attachments) and 8 (an attachment the survivor
lacks), `combine_people` raises the uncaught `Attachment.DoesNotExist`:
no survivor is selected and returned, person 8 is not deleted, and its
rows are not repointed — the universally quantified claim fails. -/
theorem combine_people_no_result :
    combine_people mergeDbC4 [7, 8] = .error .attachmentDoesNotExist := by decide

/-- Boolean membership in a list of ids (Python `in`). -/
def memB (x : Nat) : List Nat → Bool
  | [] => false
  | y :: t => x == y || memB x t

theorem memB_append (x : Nat) (l1 l2 : List Nat) :
    memB x (l1 ++ l2) = (memB x l1 || memB x l2) := by
  induction l1 with
  | nil => simp [memB]
  | cons y t ih => simp [memB, ih, Bool.or_assoc]

theorem memB_iff_mem (x : Nat) (l : List Nat) : memB x l = true ↔ x ∈ l := by
  induction l with
  | nil => simp [memB]
  | cons y t ih => simp [memB, ih]

/-- Net effect on one alias row of merging the people in `S` into `t`. -/
def rpAlias (t : Nat) (S : List Nat) (a : AliasRow) : AliasRow :=
  if memB a.person S then { a with person := t } else a

def rpAuth (t : Nat) (S : List Nat) (a : AuthorshipRow) : AuthorshipRow :=
  if memB a.person S then { a with person := t } else a

def rpRec (t : Nat) (S : List Nat) (a : RecordAuthorshipRow) : RecordAuthorshipRow :=
  if memB a.person S then { a with person := t } else a

theorem le_pyMaxAux_init : ∀ (l : List Nat) (x : Nat), x ≤ pyMaxAux x l := by
  intro l
  induction l with
  | nil => intro x; exact le_refl x
  | cons y t ih =>
    intro x
    exact le_trans (Nat.le_max_left x y) (ih (max x y))

theorem le_pyMaxAux_mem : ∀ (l : List Nat) (x y : Nat), y ∈ l → y ≤ pyMaxAux x l := by
  intro l
  induction l with
  | nil => intro x y h; exact absurd h (List.not_mem_nil y)
  | cons z t ih =>
    intro x y h
    rcases List.mem_cons.mp h with h | h
    · rw [h]
      exact le_trans (Nat.le_max_right x z) (le_pyMaxAux_init t (max x z))
    · exact ih (max x z) y h

theorem pyMaxAux_attained : ∀ (l : List Nat) (x : Nat),
    pyMaxAux x l = x ∨ pyMaxAux x l ∈ l := by
  intro l
  induction l with
  | nil => intro x; exact Or.inl rfl
  | cons y t ih =>
    intro x
    rcases ih (max x y) with h | h
    · rcases max_choice x y with hm | hm
      · exact Or.inl (by rw [pyMaxAux, h, hm])
      · exact Or.inr (by rw [pyMaxAux, h, hm]; exact List.mem_cons_self y t)
    · exact Or.inr (List.mem_cons_of_mem y h)

theorem pyAt_mem : ∀ (l : List Nat) (j : Nat), j < l.length → pyAt l j ∈ l := by
  intro l
  induction l with
  | nil => intro j h; simp at h
  | cons x t ih =>
    intro j h
    cases j with
    | zero => exact List.mem_cons_self x t
    | succ n =>
      exact List.mem_cons_of_mem x (ih n (by simpa using Nat.lt_of_succ_lt_succ h))

theorem pyAt_map (f : Nat → Nat) :
    ∀ (l : List Nat) (j : Nat), j < l.length → pyAt (l.map f) j = f (pyAt l j) := by
  intro l
  induction l with
  | nil => intro j h; simp at h
  | cons x t ih =>
    intro j h
    cases j with
    | zero => rfl
    | succ n => exact ih n (by simpa using Nat.lt_of_succ_lt_succ h)

theorem pyFirstIndex_lt (p : Nat → Bool) :
    ∀ l : List Nat, (∃ x ∈ l, p x = true) → pyFirstIndex p l < l.length := by
  intro l
  induction l with
  | nil => rintro ⟨x, hx, _⟩; exact absurd hx (List.not_mem_nil x)
  | cons y t ih =>
    rintro ⟨x, hx, hpx⟩
    by_cases hy : p y = true
    · simp [pyFirstIndex, hy]
    · rcases List.mem_cons.mp hx with h | h
      · rw [h] at hpx; exact absurd hpx hy
      · have := ih ⟨x, h, hpx⟩
        simp only [pyFirstIndex, hy]
        simpa using Nat.succ_lt_succ this

theorem pyFirstIndex_found (p : Nat → Bool) :
    ∀ l : List Nat, pyFirstIndex p l < l.length →
      p (pyAt l (pyFirstIndex p l)) = true := by
  intro l
  induction l with
  | nil => intro h; simp [pyFirstIndex] at h
  | cons y t ih =>
    intro h
    by_cases hy : p y = true
    · simp [pyFirstIndex, hy, pyAt]
    · simp only [pyFirstIndex, hy, if_false, List.length_cons] at h ⊢
      have ht : pyFirstIndex p t < t.length := Nat.lt_of_succ_lt_succ h
      simpa [pyAt] using ih ht

theorem pyFirstIndex_min (p : Nat → Bool) :
    ∀ (l : List Nat) (j : Nat), j < pyFirstIndex p l → p (pyAt l j) = false := by
  intro l
  induction l with
  | nil => intro j h; simp [pyFirstIndex] at h
  | cons y t ih =>
    intro j h
    by_cases hy : p y = true
    · simp [pyFirstIndex, hy] at h
    · cases j with
      | zero => simpa [pyAt] using Bool.of_not_eq_true hy
      | succ n =>
        simp only [pyFirstIndex, hy, if_false] at h
        exact ih n (Nat.lt_of_succ_lt_succ h)

theorem pyPop_subset : ∀ (l : List Nat) (i : Nat) (x : Nat),
    x ∈ pyPop l i → x ∈ l := by
  intro l
  induction l with
  | nil => intro i x h; simp [pyPop] at h
  | cons y t ih =>
    intro i x h
    cases i with
    | zero => exact List.mem_cons_of_mem y h
    | succ n =>
      rcases List.mem_cons.mp h with h | h
      · rw [h]; exact List.mem_cons_self y t
      · exact List.mem_cons_of_mem y (ih n x h)

theorem pyPop_nodup : ∀ (l : List Nat) (i : Nat), l.Nodup → (pyPop l i).Nodup := by
  intro l
  induction l with
  | nil => intro i _; simp [pyPop]
  | cons y t ih =>
    intro i h
    rcases List.nodup_cons.mp h with ⟨hy, ht⟩
    cases i with
    | zero => exact ht
    | succ n =>
      refine List.nodup_cons.mpr ⟨fun hc => hy (pyPop_subset t n y hc), ih n ht⟩

theorem pyAt_not_mem_pyPop : ∀ (l : List Nat) (i : Nat), l.Nodup → i < l.length →
    pyAt l i ∉ pyPop l i := by
  intro l
  induction l with
  | nil => intro i _ h; simp at h
  | cons y t ih =>
    intro i h hi
    rcases List.nodup_cons.mp h with ⟨hy, ht⟩
    cases i with
    | zero => exact hy
    | succ n =>
      intro hc
      have hn : n < t.length := by simpa using Nat.lt_of_succ_lt_succ hi
      rcases List.mem_cons.mp hc with hc | hc
      · exact hy (hc ▸ pyAt_mem t n hn)
      · exact ih n ht hn hc

theorem filter_filter_bool {α : Type} (p q : α → Bool) :
    ∀ l : List α, (l.filter q).filter p = l.filter (fun a => q a && p a) := by
  intro l
  induction l with
  | nil => rfl
  | cons a t ih =>
    cases hq : q a with
    | false => simp [List.filter_cons, hq, ih]
    | true =>
      cases hp : p a with
      | false => simp [List.filter_cons, hq, hp, ih]
      | true => simp [List.filter_cons, hq, hp, ih]

theorem filter_pairwise_le_one {α : Type} (q : α → Bool) :
    ∀ l : List α, l.Pairwise (fun a b => ¬(q a = true ∧ q b = true)) →
      (l.filter q).length ≤ 1 := by
  intro l
  induction l with
  | nil => intro _; simp
  | cons a t ih =>
    intro h
    rcases List.pairwise_cons.mp h with ⟨hab, ht⟩
    cases hq : q a with
    | false => simpa [List.filter_cons, hq] using ih ht
    | true =>
      have hnil : t.filter q = [] := by
        apply List.filter_eq_nil.mpr
        intro b hb hqb
        exact hab b hb ⟨hq, hqb⟩
      simp [List.filter_cons, hq, hnil]

theorem filter_ne_then_eq {α : Type} (f : α → Nat) {p l : Nat} (hpl : p ≠ l)
    (lst : List α) :
    (lst.filter (fun u => f u != l)).filter (fun u => f u == p) =
      lst.filter (fun u => f u == p) := by
  rw [filter_filter_bool]
  congr 1
  funext u
  cases hq : f u == p with
  | false => simp [hq]
  | true =>
    have : f u = p := by simpa using hq
    have h2 : (f u != l) = true := by
      rw [this]
      simpa using hpl
    simp [hq, h2]

theorem filter_notmem_comp {α : Type} (f : α → Nat) (done : List Nat) (l : Nat)
    (lst : List α) :
    (lst.filter (fun a => !memB (f a) done)).filter (fun a => f a != l) =
      lst.filter (fun a => !memB (f a) (done ++ [l])) := by
  rw [filter_filter_bool]
  congr 1
  funext a
  rw [memB_append]
  simp only [bne, memB, Bool.or_false]
  cases memB (f a) done <;> cases (f a) == l <;> rfl

theorem moveTag_pk_eq (t pk : Nat) (u : TagRow) :
    (if u.pk == pk then { u with object_id := t } else u).pk = u.pk := by
  cases u.pk == pk <;> rfl

theorem moveTag_cons (t pk : Nat) (a : TagRow) (rest : List TagRow) :
    moveTag t pk (a :: rest) =
      (if a.pk == pk then { a with object_id := t } else a) :: moveTag t pk rest := rfl

theorem moveTag_pk_pairwise (t pk : Nat) (cur : List TagRow)
    (h : cur.Pairwise (fun a b => a.pk ≠ b.pk)) :
    (moveTag t pk cur).Pairwise (fun a b => a.pk ≠ b.pk) := by
  unfold moveTag
  refine h.map _ (fun a b hab => ?_)
  rw [moveTag_pk_eq, moveTag_pk_eq]
  exact hab

theorem moveTag_mem_of_ne (t pk : Nat) {u : TagRow} {cur : List TagRow}
    (hu : u ∈ cur) (hne : u.pk ≠ pk) : u ∈ moveTag t pk cur := by
  unfold moveTag
  have he : (if u.pk == pk then { u with object_id := t } else u) = u := by
    have : (u.pk == pk) = false := by simpa using hne
    simp [this]
  rw [← he]
  exact List.mem_map_of_mem _ hu

theorem pk_unique_row {cur : List TagRow} {tg u : TagRow}
    (h : cur.Pairwise (fun a b => a.pk ≠ b.pk)) (htg : tg ∈ cur) (hu : u ∈ cur)
    (hpk : u.pk = tg.pk) : u = tg := by
  induction cur with
  | nil => exact absurd htg (List.not_mem_nil tg)
  | cons a rest ih =>
    rcases List.pairwise_cons.mp h with ⟨ha, hrest⟩
    rcases List.mem_cons.mp htg with h1 | h1
    · rcases List.mem_cons.mp hu with h2 | h2
      · exact h2.trans h1.symm
      · exact absurd (hpk.trans (congrArg TagRow.pk h1)) (Ne.symm (ha u h2))
    · rcases List.mem_cons.mp hu with h2 | h2
      · exact absurd ((congrArg TagRow.pk h2.symm).trans hpk) (ha tg h1)
      · exact ih hrest h1 h2

theorem moveTag_filter_other (t pk l p : Nat) (hpt : p ≠ t) (hpl : p ≠ l) :
    ∀ cur : List TagRow, (∀ u ∈ cur, u.pk = pk → u.object_id = l) →
      (moveTag t pk cur).filter (fun u => u.object_id == p) =
        cur.filter (fun u => u.object_id == p) := by
  intro cur
  induction cur with
  | nil => intro _; rfl
  | cons a rest ih =>
    intro h
    have hrest := fun u hu => h u (List.mem_cons_of_mem a hu)
    rw [moveTag_cons]
    cases hpk : a.pk == pk with
    | true =>
      have hal : a.object_id = l :=
        h a (List.mem_cons_self a rest) (by simpa using hpk)
      have h1 : (({ a with object_id := t } : TagRow).object_id == p) = false := by
        show (t == p) = false
        simpa using (Ne.symm hpt)
      have h2 : (a.object_id == p) = false := by
        rw [hal]
        simpa using (Ne.symm hpl)
      rw [if_pos rfl, List.filter_cons, List.filter_cons, h1, h2,
        if_neg Bool.false_ne_true, if_neg Bool.false_ne_true]
      exact ih hrest
    | false =>
      rw [if_neg Bool.false_ne_true, List.filter_cons, List.filter_cons]
      cases hap : a.object_id == p with
      | true => rw [if_pos rfl, if_pos rfl, ih hrest]
      | false =>
        rw [if_neg Bool.false_ne_true, if_neg Bool.false_ne_true]
        exact ih hrest

theorem moveTag_filter_target_pairwise (t pk : Nat) (ty ky : String) :
    ∀ cur : List TagRow,
      cur.Pairwise (fun a b => a.pk ≠ b.pk) →
      (∀ u ∈ cur, u.pk = pk → u.type = ty ∧ u.key = ky ∧ u.object_id ≠ t) →
      (∀ u ∈ cur, ¬(u.object_id = t ∧ u.type = ty ∧ u.key = ky)) →
      (cur.filter (fun u => u.object_id == t)).Pairwise
        (fun a b => ¬(a.type = b.type ∧ a.key = b.key)) →
      ((moveTag t pk cur).filter (fun u => u.object_id == t)).Pairwise
        (fun a b => ¬(a.type = b.type ∧ a.key = b.key)) := by
  intro cur
  induction cur with
  | nil => intro _ _ _ _; exact List.Pairwise.nil
  | cons a rest ih =>
    intro hpw hrow hnm hfil
    rcases List.pairwise_cons.mp hpw with ⟨hpka, hpkrest⟩
    have hrow' := fun u hu => hrow u (List.mem_cons_of_mem a hu)
    have hnm' := fun u hu => hnm u (List.mem_cons_of_mem a hu)
    rw [moveTag_cons]
    cases hpk : a.pk == pk with
    | true =>
      have hapk : a.pk = pk := by simpa using hpk
      obtain ⟨haty, haky, hat⟩ := hrow a (List.mem_cons_self a rest) hapk
      have hafil : (a.object_id == t) = false := by simpa using hat
      rw [List.filter_cons, hafil, if_neg Bool.false_ne_true] at hfil
      have htail := ih hpkrest hrow' hnm' hfil
      have hmoved : (({ a with object_id := t } : TagRow).object_id == t) = true := by
        simp
      rw [if_pos rfl, List.filter_cons, hmoved, if_pos rfl]
      refine List.pairwise_cons.mpr ⟨?_, htail⟩
      intro v hv hc
      rcases List.mem_filter.mp hv with ⟨hvm, hvt⟩
      rcases List.mem_map.mp hvm with ⟨w, hw, hfw⟩
      have hwpk : (w.pk == pk) = false := by
        have hne : a.pk ≠ w.pk := hpka w hw
        rw [hapk] at hne
        simpa using (Ne.symm hne)
      rw [hwpk, if_neg Bool.false_ne_true] at hfw
      rw [← hfw] at hvt hc
      have hwt : w.object_id = t := by simpa using hvt
      exact hnm w (List.mem_cons_of_mem a hw)
        ⟨hwt, hc.1.symm.trans haty, hc.2.symm.trans haky⟩
    | false =>
      rw [if_neg Bool.false_ne_true, List.filter_cons]
      cases hat : a.object_id == t with
      | false =>
        rw [if_neg Bool.false_ne_true]
        rw [List.filter_cons, hat, if_neg Bool.false_ne_true] at hfil
        exact ih hpkrest hrow' hnm' hfil
      | true =>
        rw [List.filter_cons, hat, if_pos rfl] at hfil
        rcases List.pairwise_cons.mp hfil with ⟨hhead, htail⟩
        rw [if_pos rfl]
        refine List.pairwise_cons.mpr ⟨?_, ih hpkrest hrow' hnm' htail⟩
        intro v hv hc
        rcases List.mem_filter.mp hv with ⟨hvm, hvt⟩
        rcases List.mem_map.mp hvm with ⟨w, hw, hfw⟩
        cases hwpk : w.pk == pk with
        | true =>
          obtain ⟨hwty, hwky, _⟩ := hrow w (List.mem_cons_of_mem a hw)
            (by simpa using hwpk)
          rw [hwpk, if_pos rfl] at hfw
          have hvty : v.type = ty := by rw [← hfw]; exact hwty
          have hvky : v.key = ky := by rw [← hfw]; exact hwky
          have hato : a.object_id = t := by simpa using hat
          exact hnm a (List.mem_cons_self a rest)
            ⟨hato, hc.1.trans hvty, hc.2.trans hvky⟩
        | false =>
          rw [hwpk, if_neg Bool.false_ne_true] at hfw
          rw [← hfw] at hvt hc
          exact hhead w (List.mem_filter.mpr ⟨hw, hvt⟩) hc

theorem tagMatches_eq (t : Nat) (tg : TagRow) (cur : List TagRow) :
    tagMatches t tg cur =
      (cur.filter (fun u => u.object_id == t)).filter
        (fun u => u.type == tg.type && u.key == tg.key) := by
  rw [filter_filter_bool]
  unfold tagMatches
  congr 1
  funext u
  cases u.object_id == t <;> cases u.type == tg.type <;> cases u.key == tg.key <;> rfl

theorem target_keys_pairwise_transfer (tg : TagRow) {lst : List TagRow}
    (h : lst.Pairwise (fun a b => ¬(a.type = b.type ∧ a.key = b.key))) :
    lst.Pairwise (fun a b =>
      ¬((a.type == tg.type && a.key == tg.key) = true ∧
        (b.type == tg.type && b.key == tg.key) = true)) := by
  refine h.imp ?_
  intro a b hab hc
  rcases hc with ⟨ha, hb⟩
  rw [Bool.and_eq_true] at ha hb
  have h1 : a.type = tg.type := by simpa using ha.1
  have h2 : a.key = tg.key := by simpa using ha.2
  have h3 : b.type = tg.type := by simpa using hb.1
  have h4 : b.key = tg.key := by simpa using hb.2
  exact hab ⟨h1.trans h3.symm, h2.trans h4.symm⟩

theorem tagLoop_ok (t l : Nat) (hlt : l ≠ t) :
    ∀ (snap cur : List TagRow),
      cur.Pairwise (fun a b => a.pk ≠ b.pk) →
      (cur.filter (fun u => u.object_id == t)).Pairwise
        (fun a b => ¬(a.type = b.type ∧ a.key = b.key)) →
      snap.Pairwise (fun a b => a.pk ≠ b.pk) →
      (∀ u ∈ snap, u.object_id = l) →
      (∀ u ∈ snap, u ∈ cur) →
      ∃ final, tagLoop t snap cur = .ok final ∧
        final.Pairwise (fun a b => a.pk ≠ b.pk) ∧
        (final.filter (fun u => u.object_id == t)).Pairwise
          (fun a b => ¬(a.type = b.type ∧ a.key = b.key)) ∧
        (∀ p, p ≠ t → p ≠ l →
          final.filter (fun u => u.object_id == p) =
            cur.filter (fun u => u.object_id == p)) := by
  intro snap
  induction snap with
  | nil =>
    intro cur h1 h2 _ _ _
    exact ⟨cur, rfl, h1, h2, fun p _ _ => rfl⟩
  | cons tg rest ih =>
    intro cur h1 h2 h3 h4 h6
    rcases List.pairwise_cons.mp h3 with ⟨h3h, h3t⟩
    have htg_cur : tg ∈ cur := h6 tg (List.mem_cons_self tg rest)
    have htg_obj : tg.object_id = l := h4 tg (List.mem_cons_self tg rest)
    have h4' : ∀ u ∈ rest, u.object_id = l :=
      fun u hu => h4 u (List.mem_cons_of_mem tg hu)
    cases hm : tagMatches t tg cur with
    | nil =>
      have hrowfact : ∀ u ∈ cur, u.pk = tg.pk →
          u.type = tg.type ∧ u.key = tg.key ∧ u.object_id ≠ t := by
        intro u hu hpk
        rw [pk_unique_row h1 htg_cur hu hpk]
        exact ⟨rfl, rfl, by rw [htg_obj]; exact hlt⟩
      have hobjfact : ∀ u ∈ cur, u.pk = tg.pk → u.object_id = l := by
        intro u hu hpk
        rw [pk_unique_row h1 htg_cur hu hpk]
        exact htg_obj
      have hnm : ∀ u ∈ cur, ¬(u.object_id = t ∧ u.type = tg.type ∧ u.key = tg.key) := by
        intro u hu hc
        have hmem : u ∈ tagMatches t tg cur := by
          unfold tagMatches
          exact List.mem_filter.mpr ⟨hu, by simp [hc.1, hc.2.1, hc.2.2]⟩
        rw [hm] at hmem
        exact absurd hmem (List.not_mem_nil u)
      have hc1 := moveTag_pk_pairwise t tg.pk cur h1
      have hc2 := moveTag_filter_target_pairwise t tg.pk tg.type tg.key cur
        h1 hrowfact hnm h2
      have h6' : ∀ u ∈ rest, u ∈ moveTag t tg.pk cur := fun u hu =>
        moveTag_mem_of_ne t tg.pk (h6 u (List.mem_cons_of_mem tg hu))
          (Ne.symm (h3h u hu))
      obtain ⟨final, hfin, f1, f2, f3⟩ :=
        ih (moveTag t tg.pk cur) hc1 hc2 h3t h4' h6'
      refine ⟨final, ?_, f1, f2, ?_⟩
      · show tagLoop t (tg :: rest) cur = .ok final
        unfold tagLoop
        rw [hm]
        exact hfin
      · intro p hpt hpl
        rw [f3 p hpt hpl, moveTag_filter_other t tg.pk l p hpt hpl cur hobjfact]
    | cons x xs =>
      cases xs with
      | nil =>
        obtain ⟨final, hfin, f1, f2, f3⟩ :=
          ih cur h1 h2 h3t h4' (fun u hu => h6 u (List.mem_cons_of_mem tg hu))
        refine ⟨final, ?_, f1, f2, f3⟩
        show tagLoop t (tg :: rest) cur = .ok final
        unfold tagLoop
        rw [hm]
        exact hfin
      | cons y ys =>
        exfalso
        have hle := filter_pairwise_le_one
          (fun u => u.type == tg.type && u.key == tg.key)
          (cur.filter (fun u => u.object_id == t))
          (target_keys_pairwise_transfer tg h2)
        rw [← tagMatches_eq, hm] at hle
        simp at hle

theorem attMatches_eq (t : Nat) (a : AttachmentRow) (cur : List AttachmentRow) :
    attMatches t a cur =
      (cur.filter (fun u => u.object_id == t)).filter
        (fun u => u.type == a.type && u.key == a.key) := by
  rw [filter_filter_bool]
  unfold attMatches
  congr 1
  funext u
  cases u.object_id == t <;> cases u.type == a.type <;> cases u.key == a.key <;> rfl

theorem att_keys_pairwise_transfer (a : AttachmentRow) {lst : List AttachmentRow}
    (h : lst.Pairwise (fun x y => ¬(x.type = y.type ∧ x.key = y.key))) :
    lst.Pairwise (fun x y =>
      ¬((x.type == a.type && x.key == a.key) = true ∧
        (y.type == a.type && y.key == a.key) = true)) := by
  refine h.imp ?_
  intro x y hxy hc
  rcases hc with ⟨hx, hy⟩
  rw [Bool.and_eq_true] at hx hy
  have h1 : x.type = a.type := by simpa using hx.1
  have h2 : x.key = a.key := by simpa using hx.2
  have h3 : y.type = a.type := by simpa using hy.1
  have h4 : y.key = a.key := by simpa using hy.2
  exact hxy ⟨h1.trans h3.symm, h2.trans h4.symm⟩

theorem attLoop_ok (t : Nat) (cur : List AttachmentRow)
    (hpw : (cur.filter (fun u => u.object_id == t)).Pairwise
      (fun x y => ¬(x.type = y.type ∧ x.key = y.key))) :
    ∀ snap : List AttachmentRow,
      (∀ a ∈ snap, ∃ b ∈ cur, b.object_id = t ∧ b.type = a.type ∧ b.key = a.key) →
      attLoop t cur snap = .ok () := by
  intro snap
  induction snap with
  | nil => intro _; rfl
  | cons a rest ih =>
    intro hcov
    obtain ⟨b, hb, hbt, hbty, hbk⟩ := hcov a (List.mem_cons_self a rest)
    have hmem : b ∈ attMatches t a cur := by
      unfold attMatches
      exact List.mem_filter.mpr ⟨hb, by simp [hbt, hbty, hbk]⟩
    have hle := filter_pairwise_le_one
      (fun u => u.type == a.type && u.key == a.key)
      (cur.filter (fun u => u.object_id == t))
      (att_keys_pairwise_transfer a hpw)
    rw [← attMatches_eq] at hle
    cases hm : attMatches t a cur with
    | nil =>
      rw [hm] at hmem
      exact absurd hmem (List.not_mem_nil b)
    | cons x xs =>
      cases xs with
      | nil =>
        have := ih (fun u hu => hcov u (List.mem_cons_of_mem a hu))
        show attLoop t cur (a :: rest) = .ok ()
        unfold attLoop
        rw [hm]
        exact this
      | cons y ys =>
        exfalso
        rw [hm] at hle
        simp at hle

theorem rpAlias_person_mem (t : Nat) (S : List Nat) (a : AliasRow)
    (h : memB a.person S = true) : (rpAlias t S a).person = t := by
  unfold rpAlias
  rw [if_pos h]

theorem rpAlias_person_notmem (t : Nat) (S : List Nat) (a : AliasRow)
    (h : memB a.person S = false) : (rpAlias t S a).person = a.person := by
  unfold rpAlias
  rw [h, if_neg Bool.false_ne_true]

theorem rpAlias_aliasStr (t : Nat) (S : List Nat) (a : AliasRow) :
    (rpAlias t S a).aliasStr = a.aliasStr := by
  unfold rpAlias
  cases memB a.person S <;> simp

theorem repoint_rpAlias_comp (t l : Nat) (done : List Nat) (hlt : l ≠ t)
    (a : AliasRow) :
    repointAlias t l (rpAlias t done a) = rpAlias t (done ++ [l]) a := by
  unfold repointAlias rpAlias
  rw [memB_append]
  simp only [memB, Bool.or_false]
  cases hd : memB a.person done with
  | true =>
    have ht : (t == l) = false := by simpa using (Ne.symm hlt)
    simp [ht]
  | false => simp

theorem repoint_rpAuth_comp (t l : Nat) (done : List Nat) (hlt : l ≠ t)
    (a : AuthorshipRow) :
    repointAuthorship t l (rpAuth t done a) = rpAuth t (done ++ [l]) a := by
  unfold repointAuthorship rpAuth
  rw [memB_append]
  simp only [memB, Bool.or_false]
  cases hd : memB a.person done with
  | true =>
    have ht : (t == l) = false := by simpa using (Ne.symm hlt)
    simp [ht]
  | false => simp

theorem repoint_rpRec_comp (t l : Nat) (done : List Nat) (hlt : l ≠ t)
    (a : RecordAuthorshipRow) :
    repointRecordAuthorship t l (rpRec t done a) = rpRec t (done ++ [l]) a := by
  unfold repointRecordAuthorship rpRec
  rw [memB_append]
  simp only [memB, Bool.or_false]
  cases hd : memB a.person done with
  | true =>
    have ht : (t == l) = false := by simpa using (Ne.symm hlt)
    simp [ht]
  | false => simp

theorem map_repoint_rpAlias (t l : Nat) (done : List Nat) (hlt : l ≠ t)
    (lst : List AliasRow) :
    (lst.map (rpAlias t done)).map (repointAlias t l) =
      lst.map (rpAlias t (done ++ [l])) := by
  rw [List.map_map]
  exact congrArg (fun fn => List.map fn lst)
    (funext (repoint_rpAlias_comp t l done hlt))

theorem map_repoint_rpAuth (t l : Nat) (done : List Nat) (hlt : l ≠ t)
    (lst : List AuthorshipRow) :
    (lst.map (rpAuth t done)).map (repointAuthorship t l) =
      lst.map (rpAuth t (done ++ [l])) := by
  rw [List.map_map]
  exact congrArg (fun fn => List.map fn lst)
    (funext (repoint_rpAuth_comp t l done hlt))

theorem map_repoint_rpRec (t l : Nat) (done : List Nat) (hlt : l ≠ t)
    (lst : List RecordAuthorshipRow) :
    (lst.map (rpRec t done)).map (repointRecordAuthorship t l) =
      lst.map (rpRec t (done ++ [l])) := by
  rw [List.map_map]
  exact congrArg (fun fn => List.map fn lst)
    (funext (repoint_rpRec_comp t l done hlt))

theorem hasDupAlias_false_iff : ∀ lst : List AliasRow,
    hasDupAlias lst = false ↔
      lst.Pairwise (fun a b => ¬(a.person = b.person ∧ a.aliasStr = b.aliasStr)) := by
  intro lst
  induction lst with
  | nil => simp [hasDupAlias]
  | cons a tl ih =>
    show (tl.any (fun b => a.person == b.person && a.aliasStr == b.aliasStr) ||
      hasDupAlias tl) = false ↔ _
    rw [Bool.or_eq_false_iff, List.pairwise_cons, List.any_eq_false, ih]
    constructor
    · rintro ⟨h1, h2⟩
      refine ⟨?_, h2⟩
      intro b hb hc
      exact h1 b hb (by simp [hc.1, hc.2])
    · rintro ⟨h1, h2⟩
      refine ⟨?_, h2⟩
      intro b hb hc
      rw [Bool.and_eq_true] at hc
      exact h1 b hb ⟨by simpa using hc.1, by simpa using hc.2⟩

theorem rpAlias_pairwise (t : Nat) (S : List Nat) (people : List Nat)
    (aliases : List AliasRow)
    (hS : ∀ x ∈ S, x ∈ people) (htS : t ∉ S) (htp : t ∈ people)
    (hWF : aliases.Pairwise
      (fun a b => ¬(a.person = b.person ∧ a.aliasStr = b.aliasStr)))
    (hDisj : ∀ a ∈ aliases, ∀ b ∈ aliases, a.person ∈ people →
      b.person ∈ people → a.person ≠ b.person → a.aliasStr ≠ b.aliasStr) :
    (aliases.map (rpAlias t S)).Pairwise
      (fun a b => ¬(a.person = b.person ∧ a.aliasStr = b.aliasStr)) := by
  rw [List.pairwise_map]
  refine hWF.imp_of_mem ?_
  intro a b ha hb hab hc
  rcases hc with ⟨hp, hs⟩
  rw [rpAlias_aliasStr, rpAlias_aliasStr] at hs
  cases h1 : memB a.person S with
  | true =>
    have ha_mem : a.person ∈ S := (memB_iff_mem _ _).mp h1
    have ha_t : a.person ≠ t := fun he => htS (he ▸ ha_mem)
    cases h2 : memB b.person S with
    | true =>
      have hb_mem : b.person ∈ S := (memB_iff_mem _ _).mp h2
      by_cases hpe : a.person = b.person
      · exact hab ⟨hpe, hs⟩
      · exact hDisj a ha b hb (hS _ ha_mem) (hS _ hb_mem) hpe hs
    | false =>
      rw [rpAlias_person_mem t S a h1, rpAlias_person_notmem t S b h2] at hp
      have hbp : b.person = t := hp.symm
      exact hDisj a ha b hb (hS _ ha_mem) (hbp ▸ htp)
        (fun he => ha_t (he.trans hbp)) hs
  | false =>
    cases h2 : memB b.person S with
    | true =>
      have hb_mem : b.person ∈ S := (memB_iff_mem _ _).mp h2
      have hb_t : b.person ≠ t := fun he => htS (he ▸ hb_mem)
      rw [rpAlias_person_notmem t S a h1, rpAlias_person_mem t S b h2] at hp
      exact hDisj a ha b hb (hp ▸ htp) (hS _ hb_mem)
        (fun he => hb_t (he.symm.trans hp)) hs
    | false =>
      rw [rpAlias_person_notmem t S a h1, rpAlias_person_notmem t S b h2] at hp
      exact hab ⟨hp, hs⟩

theorem filter_target_pairwise_tags (t : Nat) (lst : List TagRow)
    (h : lst.Pairwise (fun a b =>
      ¬(a.object_id = b.object_id ∧ a.type = b.type ∧ a.key = b.key))) :
    (lst.filter (fun u => u.object_id == t)).Pairwise
      (fun a b => ¬(a.type = b.type ∧ a.key = b.key)) := by
  have hs : (lst.filter (fun u => u.object_id == t)).Pairwise
      (fun a b => ¬(a.object_id = b.object_id ∧ a.type = b.type ∧ a.key = b.key)) :=
    List.Pairwise.sublist (List.filter_sublist lst) h
  refine hs.imp_of_mem ?_
  intro a b ha hb hab hc
  have hat : a.object_id = t := by simpa using (List.mem_filter.mp ha).2
  have hbt : b.object_id = t := by simpa using (List.mem_filter.mp hb).2
  exact hab ⟨hat.trans hbt.symm, hc.1, hc.2⟩

theorem filter_target_pairwise_atts (t : Nat) (lst : List AttachmentRow)
    (h : lst.Pairwise (fun a b =>
      ¬(a.object_id = b.object_id ∧ a.type = b.type ∧ a.key = b.key))) :
    (lst.filter (fun u => u.object_id == t)).Pairwise
      (fun a b => ¬(a.type = b.type ∧ a.key = b.key)) := by
  have hs : (lst.filter (fun u => u.object_id == t)).Pairwise
      (fun a b => ¬(a.object_id = b.object_id ∧ a.type = b.type ∧ a.key = b.key)) :=
    List.Pairwise.sublist (List.filter_sublist lst) h
  refine hs.imp_of_mem ?_
  intro a b ha hb hab hc
  have hat : a.object_id = t := by simpa using (List.mem_filter.mp ha).2
  have hbt : b.object_id = t := by simpa using (List.mem_filter.mp hb).2
  exact hab ⟨hat.trans hbt.symm, hc.1, hc.2⟩

/-- The state of the database after the losers in `done` (a prefix of
the loser list, in merge order) have been folded into the survivor
`t`: alias/authorship rows repointed, processed persons and their
attachments gone, other people's tags untouched, and the uniqueness
facts the remaining iterations rely on. -/
def MergeInv (db0 : MergeDB) (t : Nat) (done : List Nat) (cur : MergeDB) : Prop :=
  cur.aliases = db0.aliases.map (rpAlias t done) ∧
  cur.authorships = db0.authorships.map (rpAuth t done) ∧
  cur.recordAuthorships = db0.recordAuthorships.map (rpRec t done) ∧
  cur.persons = db0.persons.filter (fun p => !memB p done) ∧
  cur.attachments = db0.attachments.filter (fun a => !memB a.object_id done) ∧
  (∀ p, p ≠ t → memB p done = false →
    cur.tags.filter (fun u => u.object_id == p) =
      db0.tags.filter (fun u => u.object_id == p)) ∧
  cur.tags.Pairwise (fun a b => a.pk ≠ b.pk) ∧
  (cur.tags.filter (fun u => u.object_id == t)).Pairwise
    (fun a b => ¬(a.type = b.type ∧ a.key = b.key))

theorem mergeOne_step (db0 : MergeDB) (t : Nat) (people : List Nat)
    (htp : t ∈ people)
    (hAliasWF : db0.aliases.Pairwise
      (fun a b => ¬(a.person = b.person ∧ a.aliasStr = b.aliasStr)))
    (hAliasDisj : ∀ a ∈ db0.aliases, ∀ b ∈ db0.aliases, a.person ∈ people →
      b.person ∈ people → a.person ≠ b.person → a.aliasStr ≠ b.aliasStr)
    (hAttKey : db0.attachments.Pairwise (fun a b =>
      ¬(a.object_id = b.object_id ∧ a.type = b.type ∧ a.key = b.key)))
    (done : List Nat) (l : Nat) (cur : MergeDB)
    (hdone_people : ∀ x ∈ done, x ∈ people)
    (hl_people : l ∈ people)
    (hl_done : l ∉ done)
    (hl_t : l ≠ t)
    (ht_done : t ∉ done)
    (hCover : ∀ a ∈ db0.attachments, a.object_id = l →
      ∃ b ∈ db0.attachments, b.object_id = t ∧ b.type = a.type ∧ b.key = a.key)
    (hInv : MergeInv db0 t done cur) :
    ∃ cur₂, mergeOne t l cur = .ok cur₂ ∧ MergeInv db0 t (done ++ [l]) cur₂ := by
  obtain ⟨iA, iAu, iR, iP, iAt, iT1, iT2, iT3⟩ := hInv
  have hNew : cur.aliases.map (repointAlias t l) =
      db0.aliases.map (rpAlias t (done ++ [l])) := by
    rw [iA]
    exact map_repoint_rpAlias t l done hl_t db0.aliases
  have hS : ∀ x ∈ done ++ [l], x ∈ people := by
    intro x hx
    rcases List.mem_append.mp hx with hx | hx
    · exact hdone_people x hx
    · rw [List.mem_singleton.mp hx]
      exact hl_people
  have htS : t ∉ done ++ [l] := by
    intro hx
    rcases List.mem_append.mp hx with hx | hx
    · exact ht_done hx
    · exact hl_t (List.mem_singleton.mp hx).symm
  have hDup : hasDupAlias (cur.aliases.map (repointAlias t l)) = false := by
    rw [hNew]
    exact (hasDupAlias_false_iff _).mpr
      (rpAlias_pairwise t (done ++ [l]) people db0.aliases hS htS htp
        hAliasWF hAliasDisj)
  have hlmem : memB l done = false := by
    cases hm : memB l done
    · rfl
    · exact absurd ((memB_iff_mem _ _).mp hm) hl_done
  have htmem : memB t done = false := by
    cases hm : memB t done
    · rfl
    · exact absurd ((memB_iff_mem _ _).mp hm) ht_done
  have hsnap_pk : (cur.tags.filter (fun u => u.object_id == l)).Pairwise
      (fun a b => a.pk ≠ b.pk) :=
    List.Pairwise.sublist (List.filter_sublist _) iT2
  have hsnap_obj : ∀ u ∈ cur.tags.filter (fun u => u.object_id == l),
      u.object_id = l := by
    intro u hu
    simpa using (List.mem_filter.mp hu).2
  have hsnap_mem : ∀ u ∈ cur.tags.filter (fun u => u.object_id == l),
      u ∈ cur.tags :=
    fun u hu => (List.mem_filter.mp hu).1
  obtain ⟨newTags, hrun, f1, f2, f3⟩ :=
    tagLoop_ok t l hl_t (cur.tags.filter (fun u => u.object_id == l)) cur.tags
      iT2 iT3 hsnap_pk hsnap_obj hsnap_mem
  have hAttTarget : (cur.attachments.filter
      (fun u => u.object_id == t)).Pairwise
      (fun a b => ¬(a.type = b.type ∧ a.key = b.key)) := by
    rw [iAt]
    exact filter_target_pairwise_atts t _
      (List.Pairwise.sublist (List.filter_sublist _) hAttKey)
  have hAttCov : ∀ a ∈ cur.attachments.filter (fun u => u.object_id == l),
      ∃ b ∈ cur.attachments, b.object_id = t ∧ b.type = a.type ∧ b.key = a.key := by
    intro a ha
    rcases List.mem_filter.mp ha with ⟨ham, hal⟩
    have hal' : a.object_id = l := by simpa using hal
    have ha0 : a ∈ db0.attachments := by
      rw [iAt] at ham
      exact (List.mem_filter.mp ham).1
    obtain ⟨b, hb, hbt, hbty, hbk⟩ := hCover a ha0 hal'
    refine ⟨b, ?_, hbt, hbty, hbk⟩
    rw [iAt]
    refine List.mem_filter.mpr ⟨hb, ?_⟩
    rw [hbt, htmem]
    rfl
  have hAttRun : attLoop t cur.attachments
      (cur.attachments.filter (fun a => a.object_id == l)) = .ok () :=
    attLoop_ok t cur.attachments hAttTarget _ hAttCov
  refine ⟨{ persons := cur.persons.filter (fun p => p != l)
            aliases := cur.aliases.map (repointAlias t l)
            authorships := cur.authorships.map (repointAuthorship t l)
            recordAuthorships :=
              cur.recordAuthorships.map (repointRecordAuthorship t l)
            tags := newTags.filter (fun u => u.object_id != l)
            attachments :=
              cur.attachments.filter (fun a => a.object_id != l) }, ?_, ?_⟩
  · unfold mergeOne
    rw [hDup, if_neg Bool.false_ne_true, hrun, hAttRun]
  · refine ⟨hNew, ?_, ?_, ?_, ?_, ?_, ?_, ?_⟩
    · rw [iAu]
      exact map_repoint_rpAuth t l done hl_t db0.authorships
    · rw [iR]
      exact map_repoint_rpRec t l done hl_t db0.recordAuthorships
    · rw [iP]
      exact filter_notmem_comp (fun x => x) done l db0.persons
    · rw [iAt]
      exact filter_notmem_comp (fun a => a.object_id) done l db0.attachments
    · intro p hpt hpd
      rw [memB_append] at hpd
      rcases Bool.or_eq_false_iff.mp hpd with ⟨hpd1, hpd2⟩
      have hpl : p ≠ l := by
        intro he
        rw [he] at hpd2
        simp [memB] at hpd2
      have hcomp := filter_ne_then_eq TagRow.object_id hpl newTags
      exact hcomp.trans ((f3 p hpt hpl).trans (iT1 p hpt hpd1))
    · exact List.Pairwise.sublist (List.filter_sublist _) f1
    · have hcomp : ((newTags.filter (fun u => u.object_id != l)).filter
          (fun u => u.object_id == t)) =
            newTags.filter (fun u => u.object_id == t) :=
        filter_ne_then_eq TagRow.object_id (Ne.symm hl_t) newTags
      rw [hcomp]
      exact f2

theorem mergeLoop_spec (db0 : MergeDB) (t : Nat) (people ls : List Nat)
    (htp : t ∈ people)
    (hAliasWF : db0.aliases.Pairwise
      (fun a b => ¬(a.person = b.person ∧ a.aliasStr = b.aliasStr)))
    (hAliasDisj : ∀ a ∈ db0.aliases, ∀ b ∈ db0.aliases, a.person ∈ people →
      b.person ∈ people → a.person ≠ b.person → a.aliasStr ≠ b.aliasStr)
    (hAttKey : db0.attachments.Pairwise (fun a b =>
      ¬(a.object_id = b.object_id ∧ a.type = b.type ∧ a.key = b.key)))
    (hls_people : ∀ x ∈ ls, x ∈ people)
    (hls_nodup : ls.Nodup)
    (ht_ls : t ∉ ls)
    (hCover : ∀ a ∈ db0.attachments, a.object_id ∈ ls →
      ∃ b ∈ db0.attachments, b.object_id = t ∧ b.type = a.type ∧ b.key = a.key) :
    ∀ (rem done : List Nat) (cur : MergeDB), done ++ rem = ls →
      MergeInv db0 t done cur →
      ∃ fin, mergeLoop t rem cur = .ok (fin, t) ∧ MergeInv db0 t ls fin := by
  intro rem
  induction rem with
  | nil =>
    intro done cur hde hinv
    rw [List.append_nil] at hde
    subst hde
    exact ⟨cur, rfl, hinv⟩
  | cons l rest ih =>
    intro done cur hde hinv
    have hsub : ∀ x ∈ done ++ l :: rest, x ∈ ls := fun x hx => by
      rw [hde] at hx
      exact hx
    have hnd : (done ++ l :: rest).Nodup := by
      rw [hde]
      exact hls_nodup
    rcases List.nodup_append.mp hnd with ⟨hnd_done, hnd_cons, hdisj⟩
    have hl_ls : l ∈ ls :=
      hsub l (List.mem_append_right _ (List.mem_cons_self l rest))
    have hl_done : l ∉ done := fun hld => hdisj hld (List.mem_cons_self l rest)
    have hdone_people : ∀ x ∈ done, x ∈ people :=
      fun x hx => hls_people x (hsub x (List.mem_append_left _ hx))
    have ht_done : t ∉ done := fun htd => ht_ls (hsub t (List.mem_append_left _ htd))
    have hl_t : l ≠ t := fun he => ht_ls (he ▸ hl_ls)
    have hCov_l : ∀ a ∈ db0.attachments, a.object_id = l →
        ∃ b ∈ db0.attachments, b.object_id = t ∧ b.type = a.type ∧ b.key = a.key :=
      fun a ha hal => hCover a ha (hal ▸ hl_ls)
    obtain ⟨cur₂, hstep, hinv₂⟩ := mergeOne_step db0 t people htp hAliasWF
      hAliasDisj hAttKey done l cur hdone_people (hls_people l hl_ls) hl_done
      hl_t ht_done hCov_l hinv
    obtain ⟨fin, hrunr, hfin⟩ := ih (done ++ [l]) cur₂
      (by rw [List.append_assoc]; exact hde) hinv₂
    refine ⟨fin, ?_, hfin⟩
    show mergeLoop t (l :: rest) cur = .ok (fin, t)
    unfold mergeLoop
    rw [hstep]
    exact hrunr

/-- Amended claim C4: for at least two distinct people — under the
database's declared uniqueness constraints, with no alias string shared
between two of the input people (else the bulk alias UPDATE raises
`IntegrityError`), and with every attachment of a non-survivor matched
by a same-`(type, key)` attachment on the survivor (else the merge
raises the uncaught `Attachment.DoesNotExist` of C3) — `combine_people`
succeeds and returns the person with the greatest count of Authorship
rows (ties broken by the first position in input order); every Alias,
Authorship and RecordAuthorship row of each non-survivor is repointed
at the survivor, other rows are untouched; the non-survivors are
deleted. -/
theorem combine_people_correct (db : MergeDB) (people : List Nat)
    (hlen : 2 ≤ people.length)
    (hnd : people.Nodup)
    (hAliasWF : db.aliases.Pairwise
      (fun a b => ¬(a.person = b.person ∧ a.aliasStr = b.aliasStr)))
    (hAliasDisj : ∀ a ∈ db.aliases, ∀ b ∈ db.aliases, a.person ∈ people →
      b.person ∈ people → a.person ≠ b.person → a.aliasStr ≠ b.aliasStr)
    (hTagPk : db.tags.Pairwise (fun a b => a.pk ≠ b.pk))
    (hTagKey : db.tags.Pairwise (fun a b =>
      ¬(a.object_id = b.object_id ∧ a.type = b.type ∧ a.key = b.key)))
    (hAttKey : db.attachments.Pairwise (fun a b =>
      ¬(a.object_id = b.object_id ∧ a.type = b.type ∧ a.key = b.key)))
    (hCover : ∀ a ∈ db.attachments, a.object_id ∈ losersOf db people →
      ∃ b ∈ db.attachments, b.object_id = survivorOf db people ∧
        b.type = a.type ∧ b.key = a.key) :
    (combine_people db people).toOption.map Prod.snd =
      some (survivorOf db people) ∧
    (combine_people db people).toOption.map (fun r => r.1.aliases) =
      some (db.aliases.map
        (rpAlias (survivorOf db people) (losersOf db people))) ∧
    (combine_people db people).toOption.map (fun r => r.1.authorships) =
      some (db.authorships.map
        (rpAuth (survivorOf db people) (losersOf db people))) ∧
    (combine_people db people).toOption.map (fun r => r.1.recordAuthorships) =
      some (db.recordAuthorships.map
        (rpRec (survivorOf db people) (losersOf db people))) ∧
    (combine_people db people).toOption.map (fun r => r.1.persons) =
      some (db.persons.filter (fun p => !memB p (losersOf db people))) ∧
    (combine_people db people).toOption.map (fun r => r.1.attachments) =
      some (db.attachments.filter
        (fun a => !memB a.object_id (losersOf db people))) ∧
    survivorOf db people ∈ people ∧
    (∀ q ∈ people, authorshipCount db q ≤
      authorshipCount db (survivorOf db people)) ∧
    (∀ j, j < survivorIdx db people →
      authorshipCount db (pyAt people j) <
        authorshipCount db (survivorOf db people)) := by
  obtain ⟨p0, rest, rfl⟩ : ∃ p0 rest, people = p0 :: rest := by
    cases people with
    | nil => simp at hlen
    | cons a tl => exact ⟨a, tl, rfl⟩
  have hmaxdef : maxPubsOf db (p0 :: rest) =
      pyMaxAux (authorshipCount db p0) (rest.map (authorshipCount db)) := rfl
  have hcnts : (p0 :: rest).map (authorshipCount db) =
      authorshipCount db p0 :: rest.map (authorshipCount db) := rfl
  have hmax_mem : ∃ x ∈ (p0 :: rest).map (authorshipCount db),
      (x == maxPubsOf db (p0 :: rest)) = true := by
    rcases pyMaxAux_attained (rest.map (authorshipCount db))
        (authorshipCount db p0) with h | h
    · refine ⟨authorshipCount db p0, List.mem_cons_self _ _, ?_⟩
      rw [hmaxdef, h]
      simp
    · refine ⟨maxPubsOf db (p0 :: rest), ?_, by simp⟩
      rw [hcnts]
      exact List.mem_cons_of_mem _ (hmaxdef ▸ h)
  have hidx : survivorIdx db (p0 :: rest) < (p0 :: rest).length := by
    have h := pyFirstIndex_lt (fun n => n == maxPubsOf db (p0 :: rest))
      ((p0 :: rest).map (authorshipCount db)) hmax_mem
    rw [List.length_map] at h
    exact h
  have hidx' : survivorIdx db (p0 :: rest) <
      ((p0 :: rest).map (authorshipCount db)).length := by
    rw [List.length_map]
    exact hidx
  have hfound := pyFirstIndex_found (fun n => n == maxPubsOf db (p0 :: rest))
    ((p0 :: rest).map (authorshipCount db)) hidx'
  have hcnt_surv : authorshipCount db (survivorOf db (p0 :: rest)) =
      maxPubsOf db (p0 :: rest) := by
    have hmap := pyAt_map (authorshipCount db) (p0 :: rest)
      (survivorIdx db (p0 :: rest)) hidx
    have hfound' : (pyAt ((p0 :: rest).map (authorshipCount db))
        (survivorIdx db (p0 :: rest)) == maxPubsOf db (p0 :: rest)) = true := hfound
    rw [hmap] at hfound'
    simpa using hfound'
  have hle_max : ∀ x ∈ (p0 :: rest).map (authorshipCount db),
      x ≤ maxPubsOf db (p0 :: rest) := by
    intro x hx
    rcases List.mem_cons.mp (hcnts ▸ hx) with h | h
    · rw [h, hmaxdef]
      exact le_pyMaxAux_init _ _
    · rw [hmaxdef]
      exact le_pyMaxAux_mem _ _ x h
  have hsurv_mem : survivorOf db (p0 :: rest) ∈ (p0 :: rest) :=
    pyAt_mem _ _ hidx
  have hsurv_le : ∀ q ∈ (p0 :: rest), authorshipCount db q ≤
      authorshipCount db (survivorOf db (p0 :: rest)) := by
    intro q hq
    rw [hcnt_surv]
    exact hle_max _ (List.mem_map_of_mem _ hq)
  have hsurv_first : ∀ j, j < survivorIdx db (p0 :: rest) →
      authorshipCount db (pyAt (p0 :: rest) j) <
        authorshipCount db (survivorOf db (p0 :: rest)) := by
    intro j hj
    have hjlen : j < (p0 :: rest).length := lt_trans hj hidx
    have hfalse := pyFirstIndex_min (fun n => n == maxPubsOf db (p0 :: rest))
      ((p0 :: rest).map (authorshipCount db)) j hj
    rw [pyAt_map (authorshipCount db) (p0 :: rest) j hjlen] at hfalse
    have hne : authorshipCount db (pyAt (p0 :: rest) j) ≠
        maxPubsOf db (p0 :: rest) := by
      intro he
      rw [he] at hfalse
      simp at hfalse
    have hle : authorshipCount db (pyAt (p0 :: rest) j) ≤
        maxPubsOf db (p0 :: rest) :=
      hle_max _ (List.mem_map_of_mem _ (pyAt_mem _ _ hjlen))
    rw [hcnt_surv]
    exact Nat.lt_of_le_of_ne hle hne
  have hls_people : ∀ x ∈ losersOf db (p0 :: rest), x ∈ (p0 :: rest) :=
    fun x hx => pyPop_subset _ _ x hx
  have hls_nodup : (losersOf db (p0 :: rest)).Nodup :=
    pyPop_nodup _ _ hnd
  have ht_ls : survivorOf db (p0 :: rest) ∉ losersOf db (p0 :: rest) :=
    pyAt_not_mem_pyPop _ _ hnd hidx
  have hbase : MergeInv db (survivorOf db (p0 :: rest)) [] db := by
    refine ⟨?_, ?_, ?_, ?_, ?_, fun p _ _ => rfl, hTagPk, ?_⟩
    · rw [show rpAlias (survivorOf db (p0 :: rest)) [] = (fun a => a) from
        funext fun _ => rfl]
      exact (List.map_id' db.aliases).symm
    · rw [show rpAuth (survivorOf db (p0 :: rest)) [] = (fun a => a) from
        funext fun _ => rfl]
      exact (List.map_id' db.authorships).symm
    · rw [show rpRec (survivorOf db (p0 :: rest)) [] = (fun a => a) from
        funext fun _ => rfl]
      exact (List.map_id' db.recordAuthorships).symm
    · rw [show (fun p : Nat => !memB p []) = (fun _ : Nat => true) from
        funext fun _ => rfl]
      exact (List.filter_true db.persons).symm
    · rw [show (fun a : AttachmentRow => !memB a.object_id []) =
        (fun _ : AttachmentRow => true) from funext fun _ => rfl]
      exact (List.filter_true db.attachments).symm
    · exact filter_target_pairwise_tags _ db.tags hTagKey
  obtain ⟨fin, hrun, hfin⟩ := mergeLoop_spec db (survivorOf db (p0 :: rest))
    (p0 :: rest) (losersOf db (p0 :: rest)) hsurv_mem hAliasWF hAliasDisj
    hAttKey hls_people hls_nodup ht_ls hCover (losersOf db (p0 :: rest)) [] db
    rfl hbase
  have hcomb : combine_people db (p0 :: rest) =
      mergeLoop (survivorOf db (p0 :: rest)) (losersOf db (p0 :: rest)) db := rfl
  obtain ⟨gA, gAu, gR, gP, gAt, _, _, _⟩ := hfin
  rw [hcomb, hrun]
  refine ⟨rfl, ?_, ?_, ?_, ?_, ?_, hsurv_mem, hsurv_le, hsurv_first⟩
  · exact congrArg some gA
  · exact congrArg some gAu
  · exact congrArg some gR
  · exact congrArg some gP
  · exact congrArg some gAt

def mergeDbW : MergeDB :=
  { persons := [1, 2, 3]
    aliases := [⟨1, "Smith, J"⟩, ⟨2, "Jones, A"⟩, ⟨3, "Brown, C"⟩]
    authorships := [⟨100, 1, "author", 0⟩, ⟨101, 2, "author", 0⟩,
                    ⟨102, 2, "editor", 0⟩]
    recordAuthorships := [⟨200, 3, "collected", 0⟩]
    tags := [⟨1, 2, "tag", "dept", "A"⟩, ⟨2, 1, "tag", "dept", "B"⟩,
             ⟨3, 1, "tag", "orcid", "X"⟩]
    attachments := [⟨2, "attachment", "cv", "a.pdf"⟩,
                    ⟨1, "attachment", "cv", "b.pdf"⟩] }

/-- Witness for the amended C4 at a concrete database: person 2 has the
most authorships and survives; the aliases and rows of persons 1 and 3
are repointed, the losers are deleted. -/
theorem combine_people_correct_witness :
    (combine_people mergeDbW [1, 2, 3]).toOption.map Prod.snd = some 2 ∧
    (combine_people mergeDbW [1, 2, 3]).toOption.map (fun r => r.1.persons) =
      some [2] ∧
    (combine_people mergeDbW [1, 2, 3]).toOption.map (fun r => r.1.aliases) =
      some [⟨2, "Smith, J"⟩, ⟨2, "Jones, A"⟩, ⟨2, "Brown, C"⟩] ∧
    (combine_people mergeDbW [1, 2, 3]).toOption.map
        (fun r => r.1.recordAuthorships) =
      some [⟨200, 2, "collected", 0⟩] ∧
    authorshipCount mergeDbW 1 ≤ authorshipCount mergeDbW 2 :=
  have h := combine_people_correct mergeDbW [1, 2, 3] (by decide) (by decide)
    (by decide) (by decide) (by decide) (by decide) (by decide) (by decide)
  ⟨h.1, h.2.2.2.2.1, h.2.1, h.2.2.2.1, h.2.2.2.2.2.2.2.1 1 (by decide)⟩

end Strativerse
